import Mathlib

/-!
# gowiz: a client for WiZ lights (JSON over UDP)

A shallow embedding of `wiz.go`: the wire messages and their JSON encoding,
the single request/reply exchange `SendMessage`, the operations `TurnOn`,
`TurnOff`, `SetColor`, and the cancellable loop `Pulse`.

Conventions.
* A Go `string` or `[]byte` is a list of bytes; a byte is a natural number
  below 256.  Text constants of the source are written with `ascii`.
* A Go `int` is an integer; `int64` bounds are stated where they matter
  (decoding a number into an `int` field).
* `time.Time` and `time.Duration` are integers counting nanoseconds.
* The connection, the clock, the context and `time.Sleep` form the outside
  world: a state type `σ` with the operations of `Conn σ` and `Clock σ`, and
  a context given by the states in which it is done.  Every effect of the
  program is also recorded, in order, in a trace of `Event`s.
* `Pulse` does not terminate by itself; its loop is run for a bounded number
  of iterations, and the bound is arbitrary in every theorem.
* `encoding/json`, `unicode/utf8` and `strconv` are not part of the
  repository; the functions below model their documented behaviour for the
  struct types of `wiz.go`.
-/

namespace Gowiz

/-! ## Bytes and errors -/

/-- A Go string or byte slice. -/
abbrev Bytes := List Nat

/-- The bytes of an ASCII text constant. -/
def ascii (s : String) : Bytes := s.toList.map Char.toNat

deriving instance DecidableEq for Except

/-- A Go error value: `leaf` is an error with a message only, `wrap` an error
made by `fmt.Errorf` with the verb `%w`, which keeps the wrapped error. -/
inductive GoError where
  | leaf (msg : String)
  | wrap (msg : String) (cause : GoError)
  deriving DecidableEq, Repr

/-- The method `Error()` of an error: its message. -/
def GoError.Error : GoError → String
  | .leaf msg => msg
  | .wrap msg _ => msg

/-- The method `Unwrap()` of an error: the wrapped error, if any. -/
def GoError.Unwrap : GoError → Option GoError
  | .leaf _ => none
  | .wrap _ cause => some cause

/-- The chain `errors.Is` and `errors.As` walk: the error, then what it wraps,
and so on. -/
def GoError.chain : GoError → List GoError
  | .leaf msg => [.leaf msg]
  | .wrap msg cause => .wrap msg cause :: cause.chain

/-- The call `fmt.Errorf(pre + "%w", err)`. -/
def errorfW (pre : String) (err : GoError) : GoError :=
  .wrap (pre ++ err.Error) err

/-- The call `fmt.Errorf(msg)` with no verb. -/
def errorf (msg : String) : GoError := .leaf msg

/-! ## unicode/utf8 -/

/-- The rune `utf8.RuneError`, U+FFFD. -/
def RuneError : Nat := 0xFFFD

/-- A continuation byte, 0x80 to 0xBF. -/
def isCont (b : Nat) : Bool := 0x80 ≤ b && b ≤ 0xBF

/-- The lowest second byte accepted after the first byte `b0`. -/
def acceptLo (b0 : Nat) : Nat :=
  if b0 = 0xE0 then 0xA0 else if b0 = 0xF0 then 0x90 else 0x80

/-- The highest second byte accepted after the first byte `b0`. -/
def acceptHi (b0 : Nat) : Nat :=
  if b0 = 0xED then 0x9F else if b0 = 0xF4 then 0x8F else 0xBF

/-- The function `utf8.DecodeRune`: the rune that starts the input and its
width in bytes; `(RuneError, 1)` when the encoding is invalid or cut short,
`(RuneError, 0)` on empty input. -/
def decodeRune : Bytes → Nat × Nat
  | [] => (RuneError, 0)
  | b0 :: rest =>
    if b0 < 0x80 then (b0, 1)
    else if 0xC2 ≤ b0 ∧ b0 ≤ 0xDF then
      match rest with
      | b1 :: _ =>
        if isCont b1 then (b0 % 32 * 64 + b1 % 64, 2) else (RuneError, 1)
      | _ => (RuneError, 1)
    else if 0xE0 ≤ b0 ∧ b0 ≤ 0xEF then
      match rest with
      | b1 :: b2 :: _ =>
        if acceptLo b0 ≤ b1 ∧ b1 ≤ acceptHi b0 ∧ isCont b2 then
          (b0 % 16 * 4096 + b1 % 64 * 64 + b2 % 64, 3)
        else (RuneError, 1)
      | _ => (RuneError, 1)
    else if 0xF0 ≤ b0 ∧ b0 ≤ 0xF4 then
      match rest with
      | b1 :: b2 :: b3 :: _ =>
        if acceptLo b0 ≤ b1 ∧ b1 ≤ acceptHi b0 ∧ isCont b2 ∧ isCont b3 then
          (b0 % 8 * 262144 + b1 % 64 * 4096 + b2 % 64 * 64 + b3 % 64, 4)
        else (RuneError, 1)
      | _ => (RuneError, 1)
    else (RuneError, 1)

/-- The function `utf8.EncodeRune`: the UTF-8 encoding of a rune; a surrogate
or a value above U+10FFFF is encoded as `RuneError`. -/
def encodeRune (r : Nat) : Bytes :=
  if r ≤ 0x7F then [r]
  else if r ≤ 0x7FF then [0xC0 + r / 64, 0x80 + r % 64]
  else if 0x10FFFF < r ∨ (0xD800 ≤ r ∧ r ≤ 0xDFFF) then [0xEF, 0xBF, 0xBD]
  else if r ≤ 0xFFFF then [0xE0 + r / 4096, 0x80 + r / 64 % 64, 0x80 + r % 64]
  else [0xF0 + r / 262144, 0x80 + r / 4096 % 64, 0x80 + r / 64 % 64, 0x80 + r % 64]

/-- Valid UTF-8: the input splits into encodings `decodeRune` accepts.  The
first argument bounds the number of runes. -/
def validUTF8Loop : Nat → Bytes → Bool
  | _, [] => true
  | 0, _ :: _ => false
  | fuel + 1, b :: rest =>
    let (c, size) := decodeRune (b :: rest)
    if c = RuneError ∧ size = 1 then false
    else validUTF8Loop fuel ((b :: rest).drop size)

/-- The function `utf8.Valid`. -/
def validUTF8 (s : Bytes) : Bool := validUTF8Loop s.length s

/-! ## strconv -/

/-- The decimal digits of `u` in front of `acc`, most significant first.  The
first argument bounds the number of digits. -/
def formatBits : Nat → Nat → Bytes → Bytes
  | 0, _, acc => acc
  | fuel + 1, u, acc =>
    if u < 10 then (48 + u) :: acc
    else formatBits fuel (u / 10) ((48 + u % 10) :: acc)

/-- The function `strconv.AppendUint(nil, u, 10)`. -/
def formatUint (u : Nat) : Bytes := formatBits (u + 1) u []

/-- The function `strconv.AppendInt(nil, v, 10)`. -/
def formatInt (v : Int) : Bytes :=
  if v < 0 then 45 :: formatUint v.natAbs else formatUint v.natAbs

/-- The value of a run of decimal digits after the value `acc`; `none` when a
byte is not a digit. -/
def parseDigits : Bytes → Nat → Option Nat
  | [], acc => some acc
  | d :: rest, acc =>
    if 48 ≤ d ∧ d ≤ 57 then parseDigits rest (acc * 10 + (d - 48)) else none

/-- The function `strconv.ParseInt(s, 10, 64)` on a JSON number literal: an
optional minus sign and decimal digits, within the range of `int64`. -/
def parseInt64 (s : Bytes) : Option Int :=
  match s with
  | [] => none
  | 45 :: ds =>
    match ds with
    | [] => none
    | _ :: _ =>
      match parseDigits ds 0 with
      | some n => if n ≤ 2 ^ 63 then some (-(n : Int)) else none
      | none => none
  | d :: ds =>
    match parseDigits (d :: ds) 0 with
    | some n => if n < 2 ^ 63 then some (n : Int) else none
    | none => none

/-! ## encoding/json: encoding -/

/-- The table `htmlSafeSet`: the ASCII bytes the encoder copies unchanged,
all from space on except the double quote, the backslash, and the three
bytes less-than, greater-than and ampersand. -/
def htmlSafe (b : Nat) : Bool :=
  0x20 ≤ b && b < 0x80 && b != 0x22 && b != 0x5C && b != 0x3C && b != 0x3E && b != 0x26

/-- The digit `"0123456789abcdef"[n]`. -/
def hexDigit (n : Nat) : Nat := if n < 10 then 48 + n else 87 + n

/-- The escape the encoder writes for an ASCII byte outside `htmlSafeSet`. -/
def escapeByte (b : Nat) : Bytes :=
  if b = 0x5C ∨ b = 0x22 then [0x5C, b]
  else if b = 8 then [0x5C, 98]
  else if b = 12 then [0x5C, 102]
  else if b = 10 then [0x5C, 110]
  else if b = 13 then [0x5C, 114]
  else if b = 9 then [0x5C, 116]
  else [0x5C, 117, 48, 48, hexDigit (b / 16), hexDigit (b % 16)]

/-- The loop of `appendString` with HTML escaping on, the setting of
`json.Marshal`: safe ASCII is copied, other ASCII escaped, an invalid byte
becomes the escape of U+FFFD, U+2028 and U+2029 are escaped, any other rune
is copied.  The first argument bounds the number of iterations. -/
def appendStringLoop : Nat → Bytes → Bytes
  | _, [] => []
  | 0, _ :: _ => []
  | fuel + 1, b :: rest =>
    if b < 0x80 then
      (if htmlSafe b then [b] else escapeByte b) ++ appendStringLoop fuel rest
    else
      let (c, size) := decodeRune (b :: rest)
      if c = RuneError ∧ size = 1 then
        [0x5C, 117, 102, 102, 102, 100] ++ appendStringLoop fuel rest
      else if c = 0x2028 ∨ c = 0x2029 then
        [0x5C, 117, 50, 48, 50, hexDigit (c % 16)]
          ++ appendStringLoop fuel ((b :: rest).drop size)
      else
        (b :: rest).take size ++ appendStringLoop fuel ((b :: rest).drop size)

/-- The function `appendString`: a Go string as a JSON string literal. -/
def appendString (src : Bytes) : Bytes :=
  34 :: (appendStringLoop src.length src ++ [34])

mutual
/-- A Go value as the encoder sees it through reflection. -/
inductive GoValue where
  | str (s : Bytes)
  | bool (b : Bool)
  | int (n : Int)
  | struct (fields : FieldList)
/-- The fields of a struct in declaration order: the name of the `json` tag,
whether the tag has `omitempty`, and the value. -/
inductive FieldList where
  | nil
  | cons (name : Bytes) (omitEmpty : Bool) (value : GoValue) (rest : FieldList)
end

/-- The function `isEmptyValue`: the zero value of a string, bool or integer
is empty, a struct never is. -/
def isEmptyValue : GoValue → Bool
  | .str s => s.length == 0
  | .bool b => !b
  | .int n => n == 0
  | .struct _ => false

mutual
/-- The encoder of a value: `stringEncoder`, `boolEncoder`, `intEncoder` and
`structEncoder.encode`. -/
def encodeValue : GoValue → Bytes
  | .str s => appendString s
  | .bool b => if b then ascii "true" else ascii "false"
  | .int n => formatInt n
  | .struct fields =>
    let (out, next) := encodeFields fields 123
    if next = 123 then ascii "\x7b\x7d" else out ++ [125]
/-- The field loop of `structEncoder.encode`: `next` is the byte to write
before the next field, an opening brace before the first one and a comma
after; an empty `omitempty` field is skipped. -/
def encodeFields : FieldList → Nat → Bytes × Nat
  | .nil, next => ([], next)
  | .cons name omitEmpty value rest, next =>
    if omitEmpty && isEmptyValue value then encodeFields rest next
    else
      let (out, next') := encodeFields rest 44
      (next :: (34 :: name ++ [34, 58]) ++ encodeValue value ++ out, next')
end

/-! ## The data model of wiz.go -/

/-- The struct `Params`; an omitted field of a Go literal is zero. -/
structure Params where
  State : Bool := false
  White : Int := 0
  Red : Int := 0
  Blue : Int := 0
  Green : Int := 0
  Dimming : Int := 0
  deriving DecidableEq, Repr

/-- The struct `Message`. -/
structure Message where
  Method : Bytes := []
  Params : Params := {}
  deriving DecidableEq, Repr

/-- The struct `Result`. -/
structure Result where
  Success : Bool := false
  deriving DecidableEq, Repr

/-- The struct `Reply`. -/
structure Reply where
  Method : Bytes := []
  Env : Bytes := []
  Result : Result := {}
  deriving DecidableEq, Repr

/-- The struct `Colors`. -/
structure Colors where
  White : Int := 0
  Red : Int := 0
  Blue : Int := 0
  Green : Int := 0
  deriving DecidableEq, Repr

/-- The fields of `Params` with their `json` tags, in declaration order. -/
def Params.reflect (p : Params) : GoValue :=
  .struct (.cons (ascii "state") false (.bool p.State)
    (.cons (ascii "w") true (.int p.White)
    (.cons (ascii "r") true (.int p.Red)
    (.cons (ascii "b") true (.int p.Blue)
    (.cons (ascii "g") true (.int p.Green)
    (.cons (ascii "dimming") true (.int p.Dimming) .nil))))))

/-- The fields of `Message` with their `json` tags, in declaration order. -/
def Message.reflect (m : Message) : GoValue :=
  .struct (.cons (ascii "method") false (.str m.Method)
    (.cons (ascii "params") false m.Params.reflect .nil))

/-- The call `json.Marshal(msg)` for a `*Message`.  No field of `Message` has
a type the encoder rejects, so the call never fails. -/
def jsonMarshal (msg : Message) : Except GoError Bytes :=
  .ok (encodeValue msg.reflect)

/-! ## encoding/json: decoding

`json.Unmarshal` first checks that the whole input is one JSON value between
optional white space, then stores the value into the target.  `parseJSON` is
the check together with the reading of the value; `Message.decode` and
`Reply.decode` are the store.  The nesting limit of the scanner (10000) is
out of reach of the inputs of this program and is left out. -/

/-- A JSON value as the decoder reads it; a number keeps its literal. -/
inductive JValue where
  | null
  | bool (b : Bool)
  | number (lit : Bytes)
  | string (s : Bytes)
  | array (items : List JValue)
  | object (members : List (Bytes × JValue))

/-- The function `isSpace` of the scanner: space, tab, carriage return and
line feed. -/
def isSpace (b : Nat) : Bool := b == 0x20 || b == 9 || b == 13 || b == 10

/-- The input after its leading white space. -/
def skipSpace : Bytes → Bytes
  | [] => []
  | b :: rest => if isSpace b then skipSpace rest else b :: rest

/-- The value of a hexadecimal digit. -/
def hexValue (b : Nat) : Option Nat :=
  if 48 ≤ b ∧ b ≤ 57 then some (b - 48)
  else if 97 ≤ b ∧ b ≤ 102 then some (b - 87)
  else if 65 ≤ b ∧ b ≤ 70 then some (b - 55)
  else none

/-- The function `getu4` after the two bytes of backslash and u: the value of
the four hexadecimal digits that follow, and the input after them. -/
def getu4 : Bytes → Option (Nat × Bytes)
  | h1 :: h2 :: h3 :: h4 :: rest =>
    match hexValue h1, hexValue h2, hexValue h3, hexValue h4 with
    | some a, some b, some c, some d => some (a * 4096 + b * 256 + c * 16 + d, rest)
    | _, _, _, _ => none
  | _ => none

/-- The function `utf16.IsSurrogate`. -/
def isSurrogate (r : Nat) : Bool := 0xD800 ≤ r && r < 0xE000

/-- The function `utf16.DecodeRune`: the rune of a surrogate pair, U+FFFD when
the two values are not a pair. -/
def utf16DecodeRune (r1 r2 : Nat) : Nat :=
  if 0xD800 ≤ r1 ∧ r1 < 0xDC00 ∧ 0xDC00 ≤ r2 ∧ r2 < 0xE000 then
    (r1 - 0xD800) * 1024 + (r2 - 0xDC00) + 0x10000
  else RuneError

/-- The byte a one-letter escape stands for. -/
def simpleEscape (e : Nat) : Option Nat :=
  if e = 34 ∨ e = 92 ∨ e = 47 then some e
  else if e = 98 then some 8
  else if e = 102 then some 12
  else if e = 110 then some 10
  else if e = 114 then some 13
  else if e = 116 then some 9
  else none

/-- A string literal after its opening quote, as the scanner delimits it and
`unquote` reads it: the Go string and the input after the closing quote.
Escapes are resolved, a surrogate pair becomes one rune, a lone surrogate
and an invalid byte become U+FFFD; a control character, an unknown escape
or a missing closing quote is a syntax error.  The first argument bounds the
number of iterations. -/
def unquoteLoop : Nat → Bytes → Option (Bytes × Bytes)
  | 0, _ => none
  | _ + 1, [] => none
  | fuel + 1, c :: rest =>
    if c = 34 then some ([], rest)
    else if c = 92 then
      match rest with
      | [] => none
      | e :: rest1 =>
        if e = 117 then
          match getu4 rest1 with
          | none => none
          | some (rr, rest2) =>
            if isSurrogate rr then
              match rest2 with
              | 92 :: 117 :: more =>
                match getu4 more with
                | some (rr1, rest3) =>
                  if utf16DecodeRune rr rr1 ≠ RuneError then
                    (unquoteLoop fuel rest3).map
                      (fun r => (encodeRune (utf16DecodeRune rr rr1) ++ r.1, r.2))
                  else
                    (unquoteLoop fuel rest2).map (fun r => (encodeRune RuneError ++ r.1, r.2))
                | none =>
                  (unquoteLoop fuel rest2).map (fun r => (encodeRune RuneError ++ r.1, r.2))
              | _ => (unquoteLoop fuel rest2).map (fun r => (encodeRune RuneError ++ r.1, r.2))
            else (unquoteLoop fuel rest2).map (fun r => (encodeRune rr ++ r.1, r.2))
        else
          match simpleEscape e with
          | some b => (unquoteLoop fuel rest1).map (fun r => (b :: r.1, r.2))
          | none => none
    else if c < 0x20 then none
    else if c < 0x80 then (unquoteLoop fuel rest).map (fun r => (c :: r.1, r.2))
    else
      (unquoteLoop fuel ((c :: rest).drop (decodeRune (c :: rest)).2)).map
        (fun r => (encodeRune (decodeRune (c :: rest)).1 ++ r.1, r.2))

/-- A string literal after its opening quote. -/
def unquote (input : Bytes) : Option (Bytes × Bytes) := unquoteLoop input.length input

/-- The leading decimal digits of the input, and the rest. -/
def spanDigits : Bytes → Bytes × Bytes
  | [] => ([], [])
  | d :: rest =>
    if 48 ≤ d ∧ d ≤ 57 then ((spanDigits rest).1.cons d, (spanDigits rest).2)
    else ([], d :: rest)

/-- The exponent of a number literal, if one starts the input: e or E, an
optional sign, at least one digit. -/
def scanExponent (input : Bytes) : Option (Bytes × Bytes) :=
  match input with
  | e :: rest =>
    if e = 101 ∨ e = 69 then
      match rest with
      | sgn :: rest1 =>
        if sgn = 43 ∨ sgn = 45 then
          match spanDigits rest1 with
          | ([], _) => none
          | (ds, rest2) => some (e :: sgn :: ds, rest2)
        else
          match spanDigits rest with
          | ([], _) => none
          | (ds, rest2) => some (e :: ds, rest2)
      | [] => none
    else some ([], input)
  | [] => some ([], input)

/-- The fraction of a number literal, if one starts the input: a dot and at
least one digit. -/
def scanFraction (input : Bytes) : Option (Bytes × Bytes) :=
  match input with
  | 46 :: rest =>
    match spanDigits rest with
    | ([], _) => none
    | (ds, rest1) => some (46 :: ds, rest1)
  | _ => some ([], input)

/-- The integer part of a number literal: a single zero, or a digit from one
to nine followed by digits. -/
def scanIntPart (input : Bytes) : Option (Bytes × Bytes) :=
  match input with
  | d :: rest =>
    if d = 48 then some ([48], rest)
    else if 49 ≤ d ∧ d ≤ 57 then some (d :: (spanDigits rest).1, (spanDigits rest).2)
    else none
  | [] => none

/-- The tail of a number literal after its optional minus sign. -/
def scanUnsigned (input : Bytes) : Option (Bytes × Bytes) :=
  match scanIntPart input with
  | none => none
  | some (ip, rest) =>
    match scanFraction rest with
    | none => none
    | some (fp, rest1) =>
      match scanExponent rest1 with
      | none => none
      | some (ep, rest2) => some (ip ++ fp ++ ep, rest2)

/-- A number literal at the start of the input, and the input after it. -/
def scanNumber (input : Bytes) : Option (Bytes × Bytes) :=
  match input with
  | 45 :: rest => (scanUnsigned rest).map (fun r => (45 :: r.1, r.2))
  | _ => scanUnsigned input

/-- The input after the given word, when the input starts with it. -/
def expectWord : Bytes → Bytes → Option Bytes
  | [], input => some input
  | _ :: _, [] => none
  | w :: ws, b :: rest => if w = b then expectWord ws rest else none

mutual
/-- One JSON value at the start of the input (white space already skipped),
and the input after it.  The first argument bounds the nesting and the
number of members read. -/
def parseValue : Nat → Bytes → Option (JValue × Bytes)
  | 0, _ => none
  | _ + 1, [] => none
  | fuel + 1, c :: rest =>
    if c = 123 then
      match skipSpace rest with
      | [] => none
      | d :: rest1 =>
        if d = 125 then some (.object [], rest1)
        else (parseMembers fuel (d :: rest1)).map (fun r => (.object r.1, r.2))
    else if c = 91 then
      match skipSpace rest with
      | [] => none
      | d :: rest1 =>
        if d = 93 then some (.array [], rest1)
        else (parseItems fuel (d :: rest1)).map (fun r => (.array r.1, r.2))
    else if c = 34 then (unquote rest).map (fun r => (.string r.1, r.2))
    else if c = 116 then (expectWord (ascii "rue") rest).map (fun r => (.bool true, r))
    else if c = 102 then (expectWord (ascii "alse") rest).map (fun r => (.bool false, r))
    else if c = 110 then (expectWord (ascii "ull") rest).map (fun r => (.null, r))
    else (scanNumber (c :: rest)).map (fun r => (.number r.1, r.2))
/-- The members of an object from the opening quote of a key up to the
closing brace, and the input after the brace. -/
def parseMembers : Nat → Bytes → Option (List (Bytes × JValue) × Bytes)
  | 0, _ => none
  | _ + 1, [] => none
  | fuel + 1, c :: rest =>
    if c = 34 then
      match unquote rest with
      | none => none
      | some (key, rest1) =>
        match skipSpace rest1 with
        | [] => none
        | colon :: rest2 =>
          if colon = 58 then
            match parseValue fuel (skipSpace rest2) with
            | none => none
            | some (v, rest3) =>
              match skipSpace rest3 with
              | [] => none
              | sep :: rest4 =>
                if sep = 44 then
                  (parseMembers fuel (skipSpace rest4)).map (fun r => ((key, v) :: r.1, r.2))
                else if sep = 125 then some ([(key, v)], rest4)
                else none
          else none
    else none
/-- The items of an array from the first item up to the closing bracket, and
the input after the bracket. -/
def parseItems : Nat → Bytes → Option (List JValue × Bytes)
  | 0, _ => none
  | fuel + 1, input =>
    match parseValue fuel input with
    | none => none
    | some (v, rest) =>
      match skipSpace rest with
      | [] => none
      | sep :: rest1 =>
        if sep = 44 then (parseItems fuel (skipSpace rest1)).map (fun r => (v :: r.1, r.2))
        else if sep = 93 then some ([v], rest1)
        else none
end

/-- The check and the reading of `json.Unmarshal`: the input is one JSON
value between optional white space. -/
def parseJSON (data : Bytes) : Option JValue :=
  match parseValue (data.length + 1) (skipSpace data) with
  | none => none
  | some (v, rest) => if (skipSpace rest).isEmpty then some v else none

/-- The smallest rune of the fold orbit of `r` (`foldRune`).  Two orbits
contain an ASCII letter: U+017F folds to S and U+212A to K.  No other rune
folds to ASCII, so other orbits do not change which key matches a field
whose name is ASCII, as every field name of `wiz.go` is; they are left as
they are. -/
def foldRune (r : Nat) : Nat := if r = 0x17F then 83 else if r = 0x212A then 75 else r

/-- The loop of `foldName`: ASCII letters in upper case, every other rune
folded.  The first argument bounds the number of iterations. -/
def foldNameLoop : Nat → Bytes → Bytes
  | _, [] => []
  | 0, _ :: _ => []
  | fuel + 1, c :: rest =>
    if c < 0x80 then
      (if 97 ≤ c ∧ c ≤ 122 then c - 32 else c) :: foldNameLoop fuel rest
    else
      encodeRune (foldRune (decodeRune (c :: rest)).1)
        ++ foldNameLoop fuel ((c :: rest).drop (decodeRune (c :: rest)).2)

/-- The function `foldName`: the key under which a field is looked up when
no field has exactly the name of the JSON key. -/
def foldName (s : Bytes) : Bytes := foldNameLoop s.length s

/-- Whether the JSON key selects the field with the given tag name: the same
bytes, or the same folded name.  The folded names of the fields of one struct
of `wiz.go` are distinct, so at most one field is selected. -/
def fieldIs (name : String) (key : Bytes) : Bool :=
  key == ascii name || foldName key == foldName (ascii name)

/-- A `*json.SyntaxError`.  The kind of a decoding error is modelled, the text
of its message is schematic. -/
def syntaxError : GoError := .leaf "json: invalid JSON input"

/-- A `*json.UnmarshalTypeError` for the named field. -/
def typeError (field : String) : GoError :=
  .leaf ("json: cannot unmarshal value into Go struct field " ++ field)

/-- Storing a JSON value into a `bool`: `null` leaves the field as it is. -/
def storeBool (field : String) (old : Bool) : JValue → Except GoError Bool
  | .bool b => .ok b
  | .null => .ok old
  | _ => .error (typeError field)

/-- Storing a JSON value into a `string`. -/
def storeString (field : String) (old : Bytes) : JValue → Except GoError Bytes
  | .string s => .ok s
  | .null => .ok old
  | _ => .error (typeError field)

/-- Storing a JSON value into an `int`: the literal goes through
`strconv.ParseInt`, so a fraction, an exponent or a value outside `int64` is
a type error. -/
def storeInt (field : String) (old : Int) : JValue → Except GoError Int
  | .number lit =>
    match parseInt64 lit with
    | some n => .ok n
    | none => .error (typeError field)
  | .null => .ok old
  | _ => .error (typeError field)

/-- The members of an object stored one after the other; an unknown key is
skipped by the field function.  The decoder reports the first type error. -/
def storeMembers {α : Type} (f : α → Bytes → JValue → Except GoError α) :
    α → List (Bytes × JValue) → Except GoError α
  | a, [] => .ok a
  | a, (key, v) :: rest =>
    match f a key v with
    | .ok a' => storeMembers f a' rest
    | .error e => .error e

/-- One member of a JSON object stored into a `Params`. -/
def Params.storeField (p : Params) (key : Bytes) (v : JValue) : Except GoError Params :=
  if fieldIs "state" key then
    (storeBool "Message.params.state" p.State v).map (fun x => { p with State := x })
  else if fieldIs "w" key then
    (storeInt "Message.params.w" p.White v).map (fun x => { p with White := x })
  else if fieldIs "r" key then
    (storeInt "Message.params.r" p.Red v).map (fun x => { p with Red := x })
  else if fieldIs "b" key then
    (storeInt "Message.params.b" p.Blue v).map (fun x => { p with Blue := x })
  else if fieldIs "g" key then
    (storeInt "Message.params.g" p.Green v).map (fun x => { p with Green := x })
  else if fieldIs "dimming" key then
    (storeInt "Message.params.dimming" p.Dimming v).map (fun x => { p with Dimming := x })
  else .ok p

/-- Storing a JSON value into a `Params`. -/
def Params.store (p : Params) : JValue → Except GoError Params
  | .object members => storeMembers Params.storeField p members
  | .null => .ok p
  | _ => .error (typeError "Message.params")

/-- One member of a JSON object stored into a `Message`. -/
def Message.storeField (m : Message) (key : Bytes) (v : JValue) : Except GoError Message :=
  if fieldIs "method" key then
    (storeString "Message.method" m.Method v).map (fun x => { m with Method := x })
  else if fieldIs "params" key then
    (m.Params.store v).map (fun x => { m with Params := x })
  else .ok m

/-- Storing a JSON value into a `Message`. -/
def Message.store (m : Message) : JValue → Except GoError Message
  | .object members => storeMembers Message.storeField m members
  | .null => .ok m
  | _ => .error (typeError "Message")

/-- The call `json.Unmarshal(data, &Message{})`. -/
def jsonUnmarshalMessage (data : Bytes) : Except GoError Message :=
  match parseJSON data with
  | none => .error syntaxError
  | some v => Message.store {} v

/-- One member of a JSON object stored into a `Result`. -/
def Result.storeField (r : Result) (key : Bytes) (v : JValue) : Except GoError Result :=
  if fieldIs "success" key then
    (storeBool "Reply.result.success" r.Success v).map (fun x => { r with Success := x })
  else .ok r

/-- Storing a JSON value into a `Result`. -/
def Result.store (r : Result) : JValue → Except GoError Result
  | .object members => storeMembers Result.storeField r members
  | .null => .ok r
  | _ => .error (typeError "Reply.result")

/-- One member of a JSON object stored into a `Reply`. -/
def Reply.storeField (r : Reply) (key : Bytes) (v : JValue) : Except GoError Reply :=
  if fieldIs "method" key then
    (storeString "Reply.method" r.Method v).map (fun x => { r with Method := x })
  else if fieldIs "env" key then
    (storeString "Reply.env" r.Env v).map (fun x => { r with Env := x })
  else if fieldIs "result" key then
    (r.Result.store v).map (fun x => { r with Result := x })
  else .ok r

/-- Storing a JSON value into a `Reply`. -/
def Reply.store (r : Reply) : JValue → Except GoError Reply
  | .object members => storeMembers Reply.storeField r members
  | .null => .ok r
  | _ => .error (typeError "Reply")

/-- The call `json.Unmarshal(data, reply)` with `reply := &Reply{}`. -/
def jsonUnmarshalReply (data : Bytes) : Except GoError Reply :=
  match parseJSON data with
  | none => .error syntaxError
  | some v => Reply.store {} v

/-- Encoding a message and decoding the bytes into a fresh `Message`. -/
def roundTrip (m : Message) : Except GoError Message :=
  match jsonMarshal m with
  | .ok b => jsonUnmarshalMessage b
  | .error err => .error err

/-! ## The outside world -/

/-- The interface `net.Conn` as `wiz.go` uses it, over a world state `σ`.
`Read` gets the length of the buffer and yields the bytes it put there. -/
structure Conn (σ : Type) where
  SetDeadline : Int → σ → Option GoError × σ
  Write : Bytes → σ → (Int × Option GoError) × σ
  Read : Nat → σ → (Bytes × Option GoError) × σ

/-- The package `time` as `wiz.go` uses it: `time.Now` and `time.Sleep`. -/
structure Clock (σ : Type) where
  Now : σ → Int
  Sleep : Int → σ → σ

/-- The struct `Light`.  Its logger is the trace of events. -/
structure Light (σ : Type) where
  conn : Conn σ
  timeout : Int

/-- What the program does, in order: the calls of `SetColor` and
`SendMessage`, the calls on the connection, the log entries and the sleeps. -/
inductive Event where
  | callSetColor (colors : Colors) (dim : Int)
  | callSendMessage (msg : Message)
  | setDeadline (t : Int)
  | write (payload : Bytes)
  | read (size : Nat)
  | logDebugWritten (bytes : Int)
  | logDebugReceived (success : Bool) (method : Bytes)
  | logError (msg : String)
  | sleep (d : Int)
  deriving DecidableEq, Repr

/-- The state of a run: the world and the trace so far. -/
structure St (σ : Type) where
  world : σ
  trace : List Event
  deriving DecidableEq

/-- The state after one more event. -/
def St.emit {σ : Type} (s : St σ) (e : Event) : St σ :=
  { s with trace := s.trace ++ [e] }

/-! ## wiz.go -/

/-- The method `Light.SendMessage`. -/
def SendMessage {σ : Type} (clk : Clock σ) (l : Light σ) (msg : Message) (s : St σ) :
    Except GoError Reply × St σ :=
  let s := s.emit (.callSendMessage msg)
  match jsonMarshal msg with
  | .error err => (.error (errorfW "unable to marshal message: " err), s)
  | .ok b =>
    let deadline := clk.Now s.world + l.timeout
    let r1 := l.conn.SetDeadline deadline s.world
    let s1 : St σ := ⟨r1.2, s.trace ++ [.setDeadline deadline]⟩
    match r1.1 with
    | some _ => (.error (errorf "unable to set connection deadline"), s1)
    | none =>
      let r2 := l.conn.Write b s1.world
      let s2 : St σ := ⟨r2.2, s1.trace ++ [.write b]⟩
      match r2.1.2 with
      | some err => (.error (errorfW "unable to write to connection: " err), s2)
      | none =>
        let s3 := s2.emit (.logDebugWritten r2.1.1)
        let r4 := l.conn.Read 1024 s3.world
        let s4 : St σ := ⟨r4.2, s3.trace ++ [.read 1024]⟩
        match r4.1.2 with
        | some err => (.error (errorfW "unable to read from udp connection: " err), s4)
        | none =>
          match jsonUnmarshalReply (r4.1.1.take 1024) with
          | .error err => (.error (errorfW "unable to unmarshal message: " err), s4)
          | .ok reply =>
            (.ok reply, s4.emit (.logDebugReceived reply.Result.Success reply.Method))

/-- The method `Light.TurnOn`. -/
def TurnOn {σ : Type} (clk : Clock σ) (l : Light σ) (s : St σ) : Option GoError × St σ :=
  match SendMessage clk l { Method := ascii "setPilot", Params := { State := true } } s with
  | (.error err, s') => (some (errorfW "unable to turn on light: " err), s')
  | (.ok _, s') => (none, s')

/-- The method `Light.TurnOff`. -/
def TurnOff {σ : Type} (clk : Clock σ) (l : Light σ) (s : St σ) : Option GoError × St σ :=
  match SendMessage clk l { Method := ascii "setPilot", Params := { State := false } } s with
  | (.error err, s') => (some (errorfW "unable to turn off light: " err), s')
  | (.ok _, s') => (none, s')

/-- The method `Light.SetColor`. -/
def SetColor {σ : Type} (clk : Clock σ) (l : Light σ) (colors : Colors) (dim : Int)
    (s : St σ) : Option GoError × St σ :=
  match SendMessage clk l
      { Method := ascii "setPilot",
        Params := {
          State := true,
          White := colors.White,
          Red := colors.Red,
          Green := colors.Green,
          Blue := colors.Blue,
          Dimming := dim } }
      (s.emit (.callSetColor colors dim)) with
  | (.error err, s') => (some (errorfW "unable to set light color: " err), s')
  | (.ok _, s') => (none, s')

/-- The constant `lowDim` of `Pulse`. -/
def lowDim : Int := 10
/-- The constant `lowSleep` of `Pulse`. -/
def lowSleep : Int := 200
/-- The constant `highDim` of `Pulse`. -/
def highDim : Int := 100
/-- The constant `highSleep` of `Pulse`. -/
def highSleep : Int := 800
/-- The constant `time.Millisecond`. -/
def Millisecond : Int := 1000000

/-- The `switch` of `Pulse`: the next value of `dim` and the sleep, in
milliseconds, after an iteration that ran with `dim`. -/
def pulseSwitch (dim : Int) : Int × Int :=
  if dim = lowDim then (highDim, highSleep)
  else if dim = highDim then (lowDim, lowSleep)
  else (dim, 0)

/-- The `default` branch of the `select` of `Pulse`: `SetColor` with the
current `dim`, a log entry when it fails, the `switch`, the sleep.  The
result is the next value of `dim` and the state after the sleep. -/
def pulseDefault {σ : Type} (clk : Clock σ) (l : Light σ) (colors : Colors) (dim : Int)
    (s : St σ) : Int × St σ :=
  let r := SetColor clk l colors dim s
  let s1 := match r.1 with
    | some err => r.2.emit (.logError err.Error)
    | none => r.2
  let next := pulseSwitch dim
  let d := Millisecond * next.2
  (next.1, ⟨clk.Sleep d s1.world, s1.trace ++ [.sleep d]⟩)

/-- Where a run of `Pulse` stands: it has returned, or it is at the top of
the loop with the given value of `dim`. -/
inductive PulseResult (σ : Type) where
  | returned (s : St σ)
  | running (dim : Int) (s : St σ)
  deriving DecidableEq

/-- The loop of `Pulse`, run for at most the given number of iterations from
the top of the loop.  `ctx` tells whether the channel `ctx.Done()` is ready
in a state of the world: the `select` returns when it is, and takes the
`default` branch when it is not. -/
def pulseLoop {σ : Type} (clk : Clock σ) (l : Light σ) (ctx : σ → Bool) (colors : Colors) :
    Nat → Int → St σ → PulseResult σ
  | 0, dim, s => .running dim s
  | fuel + 1, dim, s =>
    if ctx s.world then .returned s
    else
      pulseLoop clk l ctx colors fuel (pulseDefault clk l colors dim s).1
        (pulseDefault clk l colors dim s).2

/-- The method `Light.Pulse` run for at most the given number of iterations:
`dim` starts as `lowDim`. -/
def pulseRun {σ : Type} (clk : Clock σ) (l : Light σ) (ctx : σ → Bool) (colors : Colors)
    (fuel : Nat) (s : St σ) : PulseResult σ :=
  pulseLoop clk l ctx colors fuel lowDim s

/-- The method `Light.Pulse` within the given number of iterations: the final
state when it has returned, `none` while the loop is still running. -/
def Pulse {σ : Type} (clk : Clock σ) (l : Light σ) (ctx : σ → Bool) (colors : Colors)
    (fuel : Nat) (s : St σ) : Option (St σ) :=
  match pulseRun clk l ctx colors fuel s with
  | .returned s' => some s'
  | .running _ _ => none

/-! ## Reading a trace -/

/-- The state a run of `Pulse` has reached. -/
def PulseResult.state {σ : Type} : PulseResult σ → St σ
  | .returned s => s
  | .running _ s => s

/-- The messages handed to `SendMessage`, in order. -/
def sendCalls : List Event → List Message
  | [] => []
  | .callSendMessage msg :: rest => msg :: sendCalls rest
  | _ :: rest => sendCalls rest

/-- The arguments of the calls of `SetColor`, in order. -/
def setColorCalls : List Event → List (Colors × Int)
  | [] => []
  | .callSetColor colors dim :: rest => (colors, dim) :: setColorCalls rest
  | _ :: rest => setColorCalls rest

/-- Whether an event is a call of `SetColor` or a sleep. -/
def isPulseStep : Event → Bool
  | .callSetColor _ _ => true
  | .sleep _ => true
  | _ => false

/-- The calls of `SetColor` and the sleeps of a trace, in order. -/
def pulseSteps (t : List Event) : List Event := t.filter isPulseStep

/-- Whether an event is made inside `SendMessage` after its entry: a call on
the connection or a debug log entry. -/
def isExchangeEvent : Event → Bool
  | .setDeadline _ => true
  | .write _ => true
  | .read _ => true
  | .logDebugWritten _ => true
  | .logDebugReceived _ _ => true
  | _ => false

/-- The encoding of an optional numeric field in the words of the wire
format: nothing when the value is zero, else a comma, the quoted name, a
colon and the decimal value. -/
def optionalField (name : String) (v : Int) : Bytes :=
  if v = 0 then [] else ascii (",\"" ++ name ++ "\":") ++ formatInt v

/-- The calls of `SetColor` and the sleeps of `k` iterations of the loop of
`Pulse` that start with `dim`, by the `switch` of `Pulse`. -/
def expectedSteps (colors : Colors) : Nat → Int → List Event
  | 0, _ => []
  | k + 1, dim =>
    .callSetColor colors dim :: .sleep (Millisecond * (pulseSwitch dim).2)
      :: expectedSteps colors k (pulseSwitch dim).1

/-- The holds as the specification words them, and as the constants of
`Pulse` pair them: in a list of calls of
`SetColor` and sleeps, a call with dimming 10 is followed by a sleep of
200 ms, a call with dimming 100 by a sleep of 800 ms. -/
def HoldsAsSpecified (steps : List Event) : Prop :=
  ∀ i c,
    (steps[i]? = some (.callSetColor c 10) → steps[i + 1]? = some (.sleep (Millisecond * 200))) ∧
    (steps[i]? = some (.callSetColor c 100) → steps[i + 1]? = some (.sleep (Millisecond * 800)))

/-! ## The text of an object, for the proof that a message reads back -/

/-- The text of one member of an object: the quoted key, a colon, the text
of the value. -/
def memberText (key valueText : Bytes) : Bytes := 34 :: key ++ 34 :: 58 :: valueText

/-- The text of the members of an object, separated by commas; a member is
its key, the text of its value and the value. -/
def membersText : List (Bytes × Bytes × JValue) → Bytes
  | [] => []
  | m :: rest =>
    match rest with
    | [] => memberText m.1 m.2.1
    | _ :: _ => memberText m.1 m.2.1 ++ 44 :: membersText rest

/-- The decoder reads the bytes `k`, followed by a quote, as the key `k`. -/
def ReadsAsKey (k : Bytes) : Prop := ∀ X, unquote (k ++ 34 :: X) = some (k, X)

/-- The text does not start with white space, and with at least `n` units of
fuel the decoder reads it, before a comma or a closing brace, as the value
`v`. -/
def ReadsAsValue (n : Nat) (text : Bytes) (v : JValue) : Prop :=
  (∃ b rest, text = b :: rest ∧ isSpace b = false) ∧
  ∀ fuel, n ≤ fuel → ∀ c Y, c = 44 ∨ c = 125 →
    parseValue fuel (text ++ c :: Y) = some (v, c :: Y)

/-- The member of an optional numeric field: none when the value is zero. -/
def optionalMember (name : String) (v : Int) : List (Bytes × Bytes × JValue) :=
  if v = 0 then [] else [(ascii name, formatInt v, .number (formatInt v))]

/-- The members of the encoding of a `Params`. -/
def paramsMembers (p : Params) : List (Bytes × Bytes × JValue) :=
  (ascii "state", (if p.State then ascii "true" else ascii "false"), .bool p.State)
    :: (optionalMember "w" p.White ++ optionalMember "r" p.Red ++ optionalMember "b" p.Blue
      ++ optionalMember "g" p.Green ++ optionalMember "dimming" p.Dimming)

/-- The members of the encoding of a `Message`. -/
def messageMembers (m : Message) : List (Bytes × Bytes × JValue) :=
  [(ascii "method", appendString m.Method, .string m.Method),
   (ascii "params", 123 :: (membersText (paramsMembers m.Params) ++ [125]),
     .object ((paramsMembers m.Params).map (fun x => (x.1, x.2.2))))]

/-- The range of a Go `int` on a 64-bit platform. -/
def IsInt64 (v : Int) : Prop := -(2 : Int) ^ 63 ≤ v ∧ v < (2 : Int) ^ 63

/-! ## Concrete worlds

The state of these worlds counts the calls made on the connection and the
sleeps. -/

/-- A connection whose calls have the given outcomes; a read yields the bytes
`incoming`. -/
def scriptedConn (deadlineErr writeErr readErr : Option GoError) (incoming : Bytes) :
    Conn Nat where
  SetDeadline := fun _ n => (deadlineErr, n + 1)
  Write := fun b n => ((b.length, writeErr), n + 1)
  Read := fun _ n => ((incoming, readErr), n + 1)

/-- A clock that reads the counter; a sleep advances it by one. -/
def tickClock : Clock Nat where
  Now := fun n => n
  Sleep := fun _ n => n + 1

/-- The reply of a device that accepts every request. -/
def okReply : Bytes :=
  ascii "\x7b\"method\":\"setPilot\",\"env\":\"test\",\"result\":\x7b\"success\":true\x7d\x7d"

/-- The reply of a device that reports no success. -/
def refusedReply : Bytes :=
  ascii "\x7b\"method\":\"setPilot\",\"env\":\"test\",\"result\":\x7b\"success\":false\x7d\x7d"

/-- A light with a one second timeout on a device that answers `incoming`. -/
def respondingLight (incoming : Bytes) : Light Nat :=
  { conn := scriptedConn none none none incoming, timeout := 1000000000 }

/-- A light on a connection that is closed: every call on it fails. -/
def closedLight : Light Nat :=
  { conn := scriptedConn (some (.leaf "use of closed network connection"))
      (some (.leaf "use of closed network connection"))
      (some (.leaf "use of closed network connection")) [],
    timeout := 1000000000 }

/-- A light on a connection that accepts the deadline and then fails to write. -/
def unreachableLight : Light Nat :=
  { conn := scriptedConn none (some (.leaf "connection refused")) none [],
    timeout := 1000000000 }

/-- A context cancelled once the counter of the world has reached `n`. -/
def cancelledFrom (n : Nat) : Nat → Bool := fun w => decide (n ≤ w)

/-! ## Lemmas on the encoding -/

theorem appendString_setPilot : appendString (ascii "setPilot") = ascii "\"setPilot\"" := by
  decide

theorem jsonMarshal_ok (msg : Message) : jsonMarshal msg = .ok (encodeValue msg.reflect) := rfl

theorem encode_setPilot (p : Params) :
    encodeValue (Message.reflect { Method := ascii "setPilot", Params := p }) =
      ascii "\x7b\"method\":\"setPilot\",\"params\":\x7b\"state\":"
        ++ (if p.State then ascii "true" else ascii "false")
        ++ optionalField "w" p.White ++ optionalField "r" p.Red ++ optionalField "b" p.Blue
        ++ optionalField "g" p.Green ++ optionalField "dimming" p.Dimming
        ++ ascii "\x7d\x7d" := by
  obtain ⟨st, w, r, b, g, d⟩ := p
  simp only [Message.reflect, Params.reflect, encodeValue, encodeFields,
    isEmptyValue, optionalField, appendString_setPilot]
  by_cases h1 : w = 0 <;> by_cases h2 : r = 0 <;> by_cases h3 : b = 0 <;>
    by_cases h4 : g = 0 <;> by_cases h5 : d = 0 <;>
    simp [h1, h2, h3, h4, h5, ascii]

/-! ## Lemmas on traces -/

theorem sendCalls_append (t u : List Event) : sendCalls (t ++ u) = sendCalls t ++ sendCalls u := by
  induction t with
  | nil => rfl
  | cons e t ih => cases e <;> simp [sendCalls, ih]

theorem setColorCalls_append (t u : List Event) :
    setColorCalls (t ++ u) = setColorCalls t ++ setColorCalls u := by
  induction t with
  | nil => rfl
  | cons e t ih => cases e <;> simp [setColorCalls, ih]

theorem sendCalls_exchange (t : List Event) (h : t.all isExchangeEvent = true) :
    sendCalls t = [] := by
  induction t with
  | nil => rfl
  | cons e t ih =>
    simp only [List.all_cons, Bool.and_eq_true] at h
    cases e <;> simp_all [sendCalls, isExchangeEvent]

theorem setColorCalls_exchange (t : List Event) (h : t.all isExchangeEvent = true) :
    setColorCalls t = [] := by
  induction t with
  | nil => rfl
  | cons e t ih =>
    simp only [List.all_cons, Bool.and_eq_true] at h
    cases e <;> simp_all [setColorCalls, isExchangeEvent]

theorem pulseSteps_exchange (t : List Event) (h : t.all isExchangeEvent = true) :
    pulseSteps t = [] := by
  induction t with
  | nil => rfl
  | cons e t ih =>
    simp only [List.all_cons, Bool.and_eq_true] at h
    cases e <;> simp_all [pulseSteps, isPulseStep, isExchangeEvent]

/-- The trace of `SendMessage`: the entry, then only events of the exchange. -/
theorem SendMessage_trace {σ : Type} (clk : Clock σ) (l : Light σ) (msg : Message) (s : St σ) :
    ∃ new, (SendMessage clk l msg s).2.trace = s.trace ++ .callSendMessage msg :: new ∧
      new.all isExchangeEvent = true := by
  simp only [SendMessage, jsonMarshal, St.emit]
  repeat' split
  all_goals simp [isExchangeEvent]

/-! ## SendMessage -/

/-- C10: `SendMessage` is one exchange.  The message is encoded to `b`; the
deadline is set once, to now plus the timeout; if that fails the call fails
with no write and no read; else `b` is written once; if that fails the call
fails with no read; else one read into a buffer of 1024 bytes follows; if it
fails the call fails; else the bytes read are decoded, and the call returns
their decoding as the reply, or fails when they do not decode.  In every case
the trace holds exactly the steps performed, in this order, and the world is
the one the last step left. -/
theorem SendMessage_single_exchange {σ : Type} (clk : Clock σ) (l : Light σ) (msg : Message)
    (s : St σ) :
    ∃ b, jsonMarshal msg = .ok b ∧
      (∀ e w1,
        l.conn.SetDeadline (clk.Now s.world + l.timeout) s.world = (some e, w1) →
        SendMessage clk l msg s =
          (.error (errorf "unable to set connection deadline"),
           ⟨w1, s.trace ++ [.callSendMessage msg,
              .setDeadline (clk.Now s.world + l.timeout)]⟩)) ∧
      (∀ w1 i e w2,
        l.conn.SetDeadline (clk.Now s.world + l.timeout) s.world = (none, w1) →
        l.conn.Write b w1 = ((i, some e), w2) →
        SendMessage clk l msg s =
          (.error (errorfW "unable to write to connection: " e),
           ⟨w2, s.trace ++ [.callSendMessage msg,
              .setDeadline (clk.Now s.world + l.timeout), .write b]⟩)) ∧
      (∀ w1 i w2 data e w3,
        l.conn.SetDeadline (clk.Now s.world + l.timeout) s.world = (none, w1) →
        l.conn.Write b w1 = ((i, none), w2) →
        l.conn.Read 1024 w2 = ((data, some e), w3) →
        SendMessage clk l msg s =
          (.error (errorfW "unable to read from udp connection: " e),
           ⟨w3, s.trace ++ [.callSendMessage msg,
              .setDeadline (clk.Now s.world + l.timeout), .write b,
              .logDebugWritten i, .read 1024]⟩)) ∧
      (∀ w1 i w2 data w3 e,
        l.conn.SetDeadline (clk.Now s.world + l.timeout) s.world = (none, w1) →
        l.conn.Write b w1 = ((i, none), w2) →
        l.conn.Read 1024 w2 = ((data, none), w3) →
        jsonUnmarshalReply (data.take 1024) = .error e →
        SendMessage clk l msg s =
          (.error (errorfW "unable to unmarshal message: " e),
           ⟨w3, s.trace ++ [.callSendMessage msg,
              .setDeadline (clk.Now s.world + l.timeout), .write b,
              .logDebugWritten i, .read 1024]⟩)) ∧
      (∀ w1 i w2 data w3 reply,
        l.conn.SetDeadline (clk.Now s.world + l.timeout) s.world = (none, w1) →
        l.conn.Write b w1 = ((i, none), w2) →
        l.conn.Read 1024 w2 = ((data, none), w3) →
        jsonUnmarshalReply (data.take 1024) = .ok reply →
        SendMessage clk l msg s =
          (.ok reply,
           ⟨w3, s.trace ++ [.callSendMessage msg,
              .setDeadline (clk.Now s.world + l.timeout), .write b,
              .logDebugWritten i, .read 1024,
              .logDebugReceived reply.Result.Success reply.Method]⟩)) := by
  refine ⟨encodeValue msg.reflect, rfl, ?_, ?_, ?_, ?_, ?_⟩
  · intro e w1 h1
    simp [SendMessage, jsonMarshal, St.emit, h1]
  · intro w1 i e w2 h1 h2
    simp [SendMessage, jsonMarshal, St.emit, h1, h2]
  · intro w1 i w2 data e w3 h1 h2 h3
    simp [SendMessage, jsonMarshal, St.emit, h1, h2, h3]
  · intro w1 i w2 data w3 e h1 h2 h3 h4
    simp [SendMessage, jsonMarshal, St.emit, h1, h2, h3, h4]
  · intro w1 i w2 data w3 reply h1 h2 h3 h4
    simp [SendMessage, jsonMarshal, St.emit, h1, h2, h3, h4]

/-- C10 at a concrete input: against a device that answers with `okReply`,
`SendMessage` of the message of `TurnOn` sets the deadline one second after
now, writes the 45 bytes of the encoding, reads once and returns the decoded
reply. -/
theorem SendMessage_single_exchange_witness :
    SendMessage tickClock (respondingLight okReply)
        { Method := ascii "setPilot", Params := { State := true } } ⟨5, []⟩ =
      (.ok { Method := ascii "setPilot", Env := ascii "test", Result := { Success := true } },
       ⟨8, [.callSendMessage { Method := ascii "setPilot", Params := { State := true } },
          .setDeadline 1000000005,
          .write (ascii "\x7b\"method\":\"setPilot\",\"params\":\x7b\"state\":true\x7d\x7d"),
          .logDebugWritten 45, .read 1024, .logDebugReceived true (ascii "setPilot")]⟩) := by
  obtain ⟨b, hb, -, -, -, -, h⟩ := SendMessage_single_exchange tickClock
    (respondingLight okReply) { Method := ascii "setPilot", Params := { State := true } } ⟨5, []⟩
  have hb' : b = ascii "\x7b\"method\":\"setPilot\",\"params\":\x7b\"state\":true\x7d\x7d" := by
    have : jsonMarshal { Method := ascii "setPilot", Params := { State := true } } =
        .ok (ascii "\x7b\"method\":\"setPilot\",\"params\":\x7b\"state\":true\x7d\x7d") := by
      decide
    rw [this] at hb
    exact (Except.ok.inj hb).symm
  subst hb'
  exact h 6 45 7 okReply 8 _ rfl rfl rfl (by decide)

/-! ## TurnOn, TurnOff, SetColor -/

/-- The trace of `TurnOn`: one call of `SendMessage`. -/
theorem TurnOn_trace {σ : Type} (clk : Clock σ) (l : Light σ) (s : St σ) :
    ∃ new, (TurnOn clk l s).2.trace =
        s.trace ++ .callSendMessage { Method := ascii "setPilot", Params := { State := true } }
          :: new ∧
      new.all isExchangeEvent = true := by
  obtain ⟨new, hnew, hall⟩ := SendMessage_trace clk l
    { Method := ascii "setPilot", Params := { State := true } } s
  refine ⟨new, ?_, hall⟩
  simp only [TurnOn]
  split <;> simp_all

/-- The trace of `TurnOff`: one call of `SendMessage`. -/
theorem TurnOff_trace {σ : Type} (clk : Clock σ) (l : Light σ) (s : St σ) :
    ∃ new, (TurnOff clk l s).2.trace =
        s.trace ++ .callSendMessage { Method := ascii "setPilot", Params := { State := false } }
          :: new ∧
      new.all isExchangeEvent = true := by
  obtain ⟨new, hnew, hall⟩ := SendMessage_trace clk l
    { Method := ascii "setPilot", Params := { State := false } } s
  refine ⟨new, ?_, hall⟩
  simp only [TurnOff]
  split <;> simp_all

/-- The trace of `SetColor`: its entry, then one call of `SendMessage`. -/
theorem SetColor_trace {σ : Type} (clk : Clock σ) (l : Light σ) (c : Colors) (dim : Int)
    (s : St σ) :
    ∃ new, (SetColor clk l c dim s).2.trace =
        s.trace ++ .callSetColor c dim :: .callSendMessage
          { Method := ascii "setPilot",
            Params := { State := true, White := c.White, Red := c.Red, Green := c.Green,
                        Blue := c.Blue, Dimming := dim } } :: new ∧
      new.all isExchangeEvent = true := by
  obtain ⟨new, hnew, hall⟩ := SendMessage_trace clk l
    { Method := ascii "setPilot",
      Params := { State := true, White := c.White, Red := c.Red, Green := c.Green,
                  Blue := c.Blue, Dimming := dim } }
    (s.emit (.callSetColor c dim))
  refine ⟨new, ?_, hall⟩
  simp only [SetColor]
  split <;> simp_all [St.emit]

/-- C5: the message `SetColor` hands to `SendMessage` is the only one it
sends, and its encoding is the method, the state `true`, and then, in the
order w, r, b, g, dimming, each numeric field exactly when its value is not
zero; the call of the specification's scenario gives the payload stated
there. -/
theorem SetColor_payload {σ : Type} (clk : Clock σ) (l : Light σ) (c : Colors) (dim : Int)
    (s : St σ) :
    (∃ msg, sendCalls ((SetColor clk l c dim s).2.trace.drop s.trace.length) = [msg] ∧
      jsonMarshal msg =
        .ok (ascii "\x7b\"method\":\"setPilot\",\"params\":\x7b\"state\":true"
          ++ optionalField "w" c.White ++ optionalField "r" c.Red
          ++ optionalField "b" c.Blue ++ optionalField "g" c.Green
          ++ optionalField "dimming" dim ++ ascii "\x7d\x7d")) ∧
    (∃ msg,
      sendCalls ((SetColor clk l { White := 0, Red := 255, Blue := 0, Green := 100 } 50
        s).2.trace.drop s.trace.length) = [msg] ∧
      jsonMarshal msg =
        .ok (ascii ("\x7b\"method\":\"setPilot\",\"params\":"
          ++ "\x7b\"state\":true,\"r\":255,\"g\":100,\"dimming\":50\x7d\x7d"))) := by
  have key : ∀ (c : Colors) (dim : Int),
      sendCalls ((SetColor clk l c dim s).2.trace.drop s.trace.length) =
        [{ Method := ascii "setPilot",
           Params := { State := true, White := c.White, Red := c.Red, Green := c.Green,
                       Blue := c.Blue, Dimming := dim } }] := by
    intro c dim
    obtain ⟨new, hnew, hall⟩ := SetColor_trace clk l c dim s
    rw [hnew, List.drop_left]
    simp [sendCalls, sendCalls_exchange new hall]
  refine ⟨⟨_, key c dim, ?_⟩, ⟨_, key _ 50, by decide⟩⟩
  rw [jsonMarshal_ok, encode_setPilot]
  rfl

/-- C6: `TurnOn` and `TurnOff` each hand `SendMessage` one message, with the
method `setPilot`, the state `true` for `TurnOn` and `false` for `TurnOff`,
and every channel field zero; its encoding has the method and the state and
no numeric field. -/
theorem TurnOn_TurnOff_payload {σ : Type} (clk : Clock σ) (l : Light σ) (s : St σ) :
    (∃ msg, sendCalls ((TurnOn clk l s).2.trace.drop s.trace.length) = [msg] ∧
      msg.Method = ascii "setPilot" ∧ msg.Params.State = true ∧
      msg.Params.White = 0 ∧ msg.Params.Red = 0 ∧ msg.Params.Blue = 0 ∧
      msg.Params.Green = 0 ∧ msg.Params.Dimming = 0 ∧
      jsonMarshal msg =
        .ok (ascii "\x7b\"method\":\"setPilot\",\"params\":\x7b\"state\":true\x7d\x7d")) ∧
    (∃ msg, sendCalls ((TurnOff clk l s).2.trace.drop s.trace.length) = [msg] ∧
      msg.Method = ascii "setPilot" ∧ msg.Params.State = false ∧
      msg.Params.White = 0 ∧ msg.Params.Red = 0 ∧ msg.Params.Blue = 0 ∧
      msg.Params.Green = 0 ∧ msg.Params.Dimming = 0 ∧
      jsonMarshal msg =
        .ok (ascii "\x7b\"method\":\"setPilot\",\"params\":\x7b\"state\":false\x7d\x7d")) := by
  constructor
  · obtain ⟨new, hnew, hall⟩ := TurnOn_trace clk l s
    refine ⟨{ Method := ascii "setPilot", Params := { State := true } }, ?_,
      rfl, rfl, rfl, rfl, rfl, rfl, rfl, by decide⟩
    rw [hnew, List.drop_left]
    simp [sendCalls, sendCalls_exchange new hall]
  · obtain ⟨new, hnew, hall⟩ := TurnOff_trace clk l s
    refine ⟨{ Method := ascii "setPilot", Params := { State := false } }, ?_,
      rfl, rfl, rfl, rfl, rfl, rfl, rfl, by decide⟩
    rw [hnew, List.drop_left]
    simp [sendCalls, sendCalls_exchange new hall]

/-- C8: each of `TurnOn`, `TurnOff` and `SetColor` calls `SendMessage` once,
leaves the world and the trace as that call left them, returns no failure
when the call returns a reply, whatever the reply holds, and when the call
fails returns a failure that wraps the call's failure and whose message is
the operation's text followed by the message of the call's failure. -/
theorem operations_fail_iff_SendMessage_fails {σ : Type} (clk : Clock σ) (l : Light σ)
    (c : Colors) (dim : Int) (s : St σ) :
    ((∀ reply s', SendMessage clk l { Method := ascii "setPilot", Params := { State := true } }
          s = (.ok reply, s') → TurnOn clk l s = (none, s')) ∧
      (∀ e s', SendMessage clk l { Method := ascii "setPilot", Params := { State := true } }
          s = (.error e, s') →
        ∃ err, TurnOn clk l s = (some err, s') ∧
          err.Error = "unable to turn on light: " ++ e.Error ∧ err.Unwrap = some e) ∧
      (sendCalls ((TurnOn clk l s).2.trace.drop s.trace.length)).length = 1) ∧
    ((∀ reply s', SendMessage clk l { Method := ascii "setPilot", Params := { State := false } }
          s = (.ok reply, s') → TurnOff clk l s = (none, s')) ∧
      (∀ e s', SendMessage clk l { Method := ascii "setPilot", Params := { State := false } }
          s = (.error e, s') →
        ∃ err, TurnOff clk l s = (some err, s') ∧
          err.Error = "unable to turn off light: " ++ e.Error ∧ err.Unwrap = some e) ∧
      (sendCalls ((TurnOff clk l s).2.trace.drop s.trace.length)).length = 1) ∧
    ((∀ reply s', SendMessage clk l
          { Method := ascii "setPilot",
            Params := { State := true, White := c.White, Red := c.Red, Green := c.Green,
                        Blue := c.Blue, Dimming := dim } }
          (s.emit (.callSetColor c dim)) = (.ok reply, s') →
        SetColor clk l c dim s = (none, s')) ∧
      (∀ e s', SendMessage clk l
          { Method := ascii "setPilot",
            Params := { State := true, White := c.White, Red := c.Red, Green := c.Green,
                        Blue := c.Blue, Dimming := dim } }
          (s.emit (.callSetColor c dim)) = (.error e, s') →
        ∃ err, SetColor clk l c dim s = (some err, s') ∧
          err.Error = "unable to set light color: " ++ e.Error ∧ err.Unwrap = some e) ∧
      (sendCalls ((SetColor clk l c dim s).2.trace.drop s.trace.length)).length = 1) := by
  refine ⟨⟨?_, ?_, ?_⟩, ⟨?_, ?_, ?_⟩, ⟨?_, ?_, ?_⟩⟩
  · intro reply s' h
    simp [TurnOn, h]
  · intro e s' h
    exact ⟨errorfW "unable to turn on light: " e, by simp [TurnOn, h], rfl, rfl⟩
  · obtain ⟨new, hnew, hall⟩ := TurnOn_trace clk l s
    rw [hnew, List.drop_left]
    simp [sendCalls, sendCalls_exchange new hall]
  · intro reply s' h
    simp [TurnOff, h]
  · intro e s' h
    exact ⟨errorfW "unable to turn off light: " e, by simp [TurnOff, h], rfl, rfl⟩
  · obtain ⟨new, hnew, hall⟩ := TurnOff_trace clk l s
    rw [hnew, List.drop_left]
    simp [sendCalls, sendCalls_exchange new hall]
  · intro reply s' h
    simp [SetColor, h]
  · intro e s' h
    exact ⟨errorfW "unable to set light color: " e, by simp [SetColor, h], rfl, rfl⟩
  · obtain ⟨new, hnew, hall⟩ := SetColor_trace clk l c dim s
    rw [hnew, List.drop_left]
    simp [sendCalls, sendCalls_exchange new hall]

/-- C8 at concrete inputs: a reply with `success` false is accepted by
`TurnOn`, and on a closed connection `TurnOff` fails with the message of the
failure of `SendMessage` after its own text. -/
theorem operations_fail_iff_SendMessage_fails_witness :
    TurnOn tickClock (respondingLight refusedReply) ⟨0, []⟩ =
      (none, ⟨3, [.callSendMessage { Method := ascii "setPilot", Params := { State := true } },
        .setDeadline 1000000000,
        .write (ascii "\x7b\"method\":\"setPilot\",\"params\":\x7b\"state\":true\x7d\x7d"),
        .logDebugWritten 45, .read 1024, .logDebugReceived false (ascii "setPilot")]⟩) ∧
    ((TurnOff tickClock closedLight ⟨0, []⟩).1.map GoError.Error =
      some "unable to turn off light: unable to set connection deadline") := by
  have h := operations_fail_iff_SendMessage_fails tickClock (respondingLight refusedReply)
    {} 0 ⟨0, []⟩
  exact ⟨h.1.1 { Method := ascii "setPilot", Env := ascii "test", Result := { Success := false } }
    _ (by decide), by decide⟩

/-- C9 at the failing input: on a connection whose `SetDeadline` fails with
the error `use of closed network connection`, `SendMessage` returns an error
with the message `unable to set connection deadline` that wraps nothing, so
the cause is neither in the message nor in the chain of the failure of
`TurnOn`.  On a connection whose `Write` fails, the sibling branch keeps the
cause: it is in the message and in the chain. -/
theorem SendMessage_deadline_failure_drops_cause :
    (SendMessage tickClock closedLight { Method := ascii "setPilot", Params := { State := true } }
        ⟨0, []⟩).1 = .error (.leaf "unable to set connection deadline") ∧
    (TurnOn tickClock closedLight ⟨0, []⟩).1.map GoError.Error =
      some "unable to turn on light: unable to set connection deadline" ∧
    (TurnOn tickClock closedLight ⟨0, []⟩).1.map GoError.chain =
      some [.wrap "unable to turn on light: unable to set connection deadline"
              (.leaf "unable to set connection deadline"),
            .leaf "unable to set connection deadline"] ∧
    GoError.leaf "use of closed network connection" ∉
      ((TurnOn tickClock closedLight ⟨0, []⟩).1.map GoError.chain).getD [] ∧
    (TurnOn tickClock unreachableLight ⟨0, []⟩).1.map GoError.Error =
      some "unable to turn on light: unable to write to connection: connection refused" ∧
    GoError.leaf "connection refused" ∈
      ((TurnOn tickClock unreachableLight ⟨0, []⟩).1.map GoError.chain).getD [] := by
  decide

/-! ## Pulse -/

theorem pulseSteps_append (t u : List Event) : pulseSteps (t ++ u) = pulseSteps t ++ pulseSteps u := by
  simp [pulseSteps]

theorem setColorCalls_pulseSteps (t : List Event) : setColorCalls (pulseSteps t) = setColorCalls t := by
  induction t with
  | nil => rfl
  | cons e t ih =>
    cases e <;> simp_all [pulseSteps, isPulseStep, setColorCalls, List.filter_cons]

/-- After its entry `SetColor` makes no call of `SetColor` and no sleep. -/
theorem SetColor_steps {σ : Type} (clk : Clock σ) (l : Light σ) (c : Colors) (dim : Int)
    (s : St σ) :
    ∃ rest, (SetColor clk l c dim s).2.trace = s.trace ++ .callSetColor c dim :: rest ∧
      pulseSteps rest = [] := by
  obtain ⟨new, hnew, hall⟩ := SetColor_trace clk l c dim s
  refine ⟨_, hnew, ?_⟩
  have := pulseSteps_exchange new hall
  simpa [pulseSteps, isPulseStep, List.filter_cons] using this

/-- The trace of one iteration: the entry of `SetColor`, events that are
neither a call of `SetColor` nor a sleep, and the sleep of the `switch`. -/
theorem pulseDefault_trace {σ : Type} (clk : Clock σ) (l : Light σ) (colors : Colors)
    (dim : Int) (s : St σ) :
    ∃ mid, (pulseDefault clk l colors dim s).2.trace =
        s.trace ++ (.callSetColor colors dim :: mid
          ++ [.sleep (Millisecond * (pulseSwitch dim).2)]) ∧
      pulseSteps mid = [] := by
  obtain ⟨rest, hrest, hq⟩ := SetColor_steps clk l colors dim s
  simp only [pulseDefault]
  split
  · rename_i err _
    refine ⟨rest ++ [.logError err.Error], ?_, ?_⟩
    · simp [St.emit, hrest]
    · rw [pulseSteps_append, hq]; rfl
  · exact ⟨rest, by simp [hrest], hq⟩

theorem pulseDefault_dim {σ : Type} (clk : Clock σ) (l : Light σ) (colors : Colors)
    (dim : Int) (s : St σ) : (pulseDefault clk l colors dim s).1 = (pulseSwitch dim).1 := rfl

/-- The calls of `SetColor` and the sleeps of a run of the loop are those of
some number of whole iterations, at most the bound. -/
theorem pulseLoop_steps {σ : Type} (clk : Clock σ) (l : Light σ) (ctx : σ → Bool)
    (colors : Colors) (fuel : Nat) :
    ∀ (dim : Int) (s : St σ), ∃ k new, k ≤ fuel ∧
      (pulseLoop clk l ctx colors fuel dim s).state.trace = s.trace ++ new ∧
      pulseSteps new = expectedSteps colors k dim := by
  induction fuel with
  | zero =>
    intro dim s
    exact ⟨0, [], le_refl _, by simp [pulseLoop, PulseResult.state], rfl⟩
  | succ fuel ih =>
    intro dim s
    by_cases hc : ctx s.world = true
    · exact ⟨0, [], Nat.zero_le _, by simp [pulseLoop, hc, PulseResult.state], rfl⟩
    · obtain ⟨mid, hmid, hq⟩ := pulseDefault_trace clk l colors dim s
      obtain ⟨k, new, hk, htr, hsteps⟩ := ih (pulseDefault clk l colors dim s).1
        (pulseDefault clk l colors dim s).2
      refine ⟨k + 1, (.callSetColor colors dim :: mid
          ++ [.sleep (Millisecond * (pulseSwitch dim).2)]) ++ new, Nat.succ_le_succ hk, ?_, ?_⟩
      · simp only [pulseLoop, hc]
        rw [if_neg (by simp), htr, hmid]
        simp
      · rw [pulseSteps_append, hsteps, pulseDefault_dim]
        have h1 : pulseSteps (.callSetColor colors dim :: mid
            ++ [.sleep (Millisecond * (pulseSwitch dim).2)]) =
            [.callSetColor colors dim, .sleep (Millisecond * (pulseSwitch dim).2)] := by
          have : pulseSteps (mid ++ [Event.sleep (Millisecond * (pulseSwitch dim).2)]) =
              [.sleep (Millisecond * (pulseSwitch dim).2)] := by
            rw [pulseSteps_append, hq]; rfl
          simpa [pulseSteps, isPulseStep, List.filter_cons] using this
        rw [h1]
        rfl

/-- A run that has returned stopped at a boundary where the context was done. -/
theorem pulseLoop_returned {σ : Type} (clk : Clock σ) (l : Light σ) (ctx : σ → Bool)
    (colors : Colors) (fuel : Nat) :
    ∀ (dim : Int) (s s' : St σ), pulseLoop clk l ctx colors fuel dim s = .returned s' →
      ctx s'.world = true := by
  induction fuel with
  | zero => intro dim s s' h; simp [pulseLoop] at h
  | succ fuel ih =>
    intro dim s s' h
    by_cases hc : ctx s.world = true
    · simp only [pulseLoop, hc, if_true, PulseResult.returned.injEq] at h
      rw [← h]; exact hc
    · simp only [pulseLoop, hc] at h
      exact ih _ _ _ (by simpa using h)

/-- A run that has returned stays as it is under a larger bound. -/
theorem pulseLoop_stable {σ : Type} (clk : Clock σ) (l : Light σ) (ctx : σ → Bool)
    (colors : Colors) (fuel : Nat) :
    ∀ (dim : Int) (s s' : St σ) (extra : Nat),
      pulseLoop clk l ctx colors fuel dim s = .returned s' →
      pulseLoop clk l ctx colors (fuel + extra) dim s = .returned s' := by
  induction fuel with
  | zero => intro dim s s' extra h; simp [pulseLoop] at h
  | succ fuel ih =>
    intro dim s s' extra h
    rw [Nat.succ_add]
    by_cases hc : ctx s.world = true
    · simp only [pulseLoop, hc, if_true] at h ⊢
      exact h
    · simp only [pulseLoop, hc] at h ⊢
      exact ih _ _ _ extra (by simpa using h)

/-- While the context is never done the loop runs on: every iteration of the
bound is performed. -/
theorem pulseLoop_never_done {σ : Type} (clk : Clock σ) (l : Light σ) (ctx : σ → Bool)
    (colors : Colors) (hctx : ∀ w, ctx w = false) (fuel : Nat) :
    ∀ (dim : Int) (s : St σ), ∃ dim' s' new,
      pulseLoop clk l ctx colors fuel dim s = .running dim' s' ∧
      s'.trace = s.trace ++ new ∧ pulseSteps new = expectedSteps colors fuel dim := by
  induction fuel with
  | zero => intro dim s; exact ⟨dim, s, [], rfl, by simp, rfl⟩
  | succ fuel ih =>
    intro dim s
    obtain ⟨mid, hmid, hq⟩ := pulseDefault_trace clk l colors dim s
    obtain ⟨dim', s', new, hrun, htr, hsteps⟩ := ih (pulseDefault clk l colors dim s).1
      (pulseDefault clk l colors dim s).2
    refine ⟨dim', s', (.callSetColor colors dim :: mid
        ++ [.sleep (Millisecond * (pulseSwitch dim).2)]) ++ new, ?_, ?_, ?_⟩
    · simp only [pulseLoop, hctx]
      simpa using hrun
    · rw [htr, hmid]; simp
    · rw [pulseSteps_append, hsteps, pulseDefault_dim]
      have h1 : pulseSteps (.callSetColor colors dim :: mid
          ++ [.sleep (Millisecond * (pulseSwitch dim).2)]) =
          [.callSetColor colors dim, .sleep (Millisecond * (pulseSwitch dim).2)] := by
        have : pulseSteps (mid ++ [Event.sleep (Millisecond * (pulseSwitch dim).2)]) =
            [.sleep (Millisecond * (pulseSwitch dim).2)] := by
          rw [pulseSteps_append, hq]; rfl
        simpa [pulseSteps, isPulseStep, List.filter_cons] using this
      rw [h1]
      rfl

theorem pulseSwitch_low : pulseSwitch 10 = (100, 800) := by decide

theorem pulseSwitch_high : pulseSwitch 100 = (10, 200) := by decide

/-- In the steps of whole iterations a call of `SetColor` has the colors of
the run and a dimming of 10 or 100, and the sleep of the `switch` follows. -/
theorem expectedSteps_call (colors : Colors) (k : Nat) :
    ∀ (dim : Int), dim = 10 ∨ dim = 100 → ∀ (i : Nat) (c : Colors) (d : Int),
      (expectedSteps colors k dim)[i]? = some (.callSetColor c d) →
      c = colors ∧ (d = 10 ∨ d = 100) ∧
        (expectedSteps colors k dim)[i + 1]? = some (.sleep (Millisecond * (pulseSwitch d).2)) := by
  induction k with
  | zero => intro dim _ i c d h; simp [expectedSteps] at h
  | succ k ih =>
    intro dim hdim i c d h
    match i with
    | 0 =>
      simp only [expectedSteps, List.getElem?_cons_zero, Option.some.injEq,
        Event.callSetColor.injEq] at h
      obtain ⟨rfl, rfl⟩ := h
      exact ⟨rfl, hdim, by simp [expectedSteps]⟩
    | 1 => simp [expectedSteps] at h
    | i + 2 =>
      simp only [expectedSteps, List.getElem?_cons_succ] at h ⊢
      have hdim' : (pulseSwitch dim).1 = 10 ∨ (pulseSwitch dim).1 = 100 := by
        rcases hdim with rfl | rfl
        · right; decide
        · left; decide
      exact ih _ hdim' i c d h

/-- The calls of `SetColor` of whole iterations alternate between the dimming
they start with and the other one. -/
theorem expectedSteps_calls (colors : Colors) (k : Nat) :
    ∀ (dim : Int), dim = 10 ∨ dim = 100 → ∀ (n : Nat) (c : Colors) (d : Int),
      (setColorCalls (expectedSteps colors k dim))[n]? = some (c, d) →
      c = colors ∧ d = if n % 2 = 0 then dim else (pulseSwitch dim).1 := by
  induction k with
  | zero => intro dim _ n c d h; simp [expectedSteps, setColorCalls] at h
  | succ k ih =>
    intro dim hdim n c d h
    match n with
    | 0 =>
      simp only [expectedSteps, setColorCalls, List.getElem?_cons_zero, Option.some.injEq,
        Prod.mk.injEq] at h
      obtain ⟨rfl, rfl⟩ := h
      exact ⟨rfl, by simp⟩
    | n + 1 =>
      simp only [expectedSteps, setColorCalls, List.getElem?_cons_succ] at h
      have hdim' : (pulseSwitch dim).1 = 10 ∨ (pulseSwitch dim).1 = 100 := by
        rcases hdim with rfl | rfl
        · right; decide
        · left; decide
      obtain ⟨hc, hd⟩ := ih _ hdim' n c d h
      refine ⟨hc, ?_⟩
      rw [hd]
      have hback : (pulseSwitch (pulseSwitch dim).1).1 = dim := by
        rcases hdim with rfl | rfl <;> decide
      rw [hback]
      rcases Nat.mod_two_eq_zero_or_one n with h0 | h1
      · have : (n + 1) % 2 = 1 := by omega
        simp [h0, this]
      · have : (n + 1) % 2 = 0 := by omega
        simp [h1, this]

theorem setColorCalls_expectedSteps_length (colors : Colors) (k : Nat) :
    ∀ (dim : Int), (setColorCalls (expectedSteps colors k dim)).length = k := by
  induction k with
  | zero => intro dim; rfl
  | succ k ih => intro dim; simp [expectedSteps, setColorCalls, ih]

/-- C1 at the failing input: in a run of `Pulse` against a device that
answers, cancelled after two iterations, the calls of `SetColor` and the
sleeps are: dimming 10, sleep of 800 ms, dimming 100, sleep of 200 ms.  The
constants of `Pulse` pair `lowDim` = 10 with `lowSleep` = 200 and `highDim`
= 100 with `highSleep` = 800, and the `switch` assigns `dim` and `sleep` as
such a pair, but the sleep runs before the new `dim` is sent: each level is
held for the time of the other, and the holds are not as specified. -/
theorem Pulse_holds_swapped :
    pulseSteps (pulseRun tickClock (respondingLight okReply) (cancelledFrom 8)
        { White := 0, Red := 255, Blue := 0, Green := 100 } 3 ⟨0, []⟩).state.trace =
      [.callSetColor { White := 0, Red := 255, Blue := 0, Green := 100 } 10,
       .sleep (Millisecond * highSleep),
       .callSetColor { White := 0, Red := 255, Blue := 0, Green := 100 } 100,
       .sleep (Millisecond * lowSleep)] ∧
    (lowDim, lowSleep) = (10, 200) ∧ (highDim, highSleep) = (100, 800) ∧
    ¬ HoldsAsSpecified (pulseSteps
      (pulseRun tickClock (respondingLight okReply) (cancelledFrom 8)
        { White := 0, Red := 255, Blue := 0, Green := 100 } 3 ⟨0, []⟩).state.trace) := by
  refine ⟨by decide, by decide, by decide, ?_⟩
  intro h
  have h0 := (h 0 { White := 0, Red := 255, Blue := 0, Green := 100 }).1 (by decide)
  revert h0
  decide

/-- What the loop does in every run: among the calls of `SetColor` and the
sleeps, a call of `SetColor` has dimming 10 or 100 and is followed by a
sleep, of `highSleep` = 800 ms after dimming 10 and of `lowSleep` = 200 ms
after dimming 100.  The swap of the holds is not tied to one input. -/
theorem Pulse_hold_after_dimming {σ : Type} (clk : Clock σ) (l : Light σ) (ctx : σ → Bool)
    (colors : Colors) (fuel : Nat) (s : St σ) (i : Nat) (c : Colors) (d : Int)
    (h : (pulseSteps ((pulseRun clk l ctx colors fuel s).state.trace.drop s.trace.length))[i]? =
      some (.callSetColor c d)) :
    (d = 10 ∧
      (pulseSteps ((pulseRun clk l ctx colors fuel s).state.trace.drop s.trace.length))[i + 1]? =
        some (.sleep (Millisecond * 800))) ∨
    (d = 100 ∧
      (pulseSteps ((pulseRun clk l ctx colors fuel s).state.trace.drop s.trace.length))[i + 1]? =
        some (.sleep (Millisecond * 200))) := by
  obtain ⟨k, new, -, htr, hsteps⟩ := pulseLoop_steps clk l ctx colors fuel lowDim s
  simp only [pulseRun] at h ⊢
  rw [htr, List.drop_left, hsteps] at h ⊢
  obtain ⟨-, hd, hnext⟩ := expectedSteps_call colors k lowDim (Or.inl rfl) i c d h
  rcases hd with rfl | rfl
  · left; exact ⟨rfl, by rw [hnext, pulseSwitch_low]⟩
  · right; exact ⟨rfl, by rw [hnext, pulseSwitch_high]⟩

/-- The swap at a concrete input: in a run of two iterations on a closed
connection the second call of `SetColor`, with dimming 100, is followed by a
sleep of 200 ms. -/
theorem Pulse_hold_after_dimming_witness :
    (100 : Int) = 100 ∧
      (pulseSteps ((pulseRun tickClock closedLight (cancelledFrom 100)
        { White := 0, Red := 255, Blue := 0, Green := 100 } 2 ⟨0, []⟩).state.trace.drop 0))[2 + 1]? =
        some (.sleep (Millisecond * 200)) :=
  (Pulse_hold_after_dimming tickClock closedLight (cancelledFrom 100)
    { White := 0, Red := 255, Blue := 0, Green := 100 } 2 ⟨0, []⟩ 2
    { White := 0, Red := 255, Blue := 0, Green := 100 } 100 (by decide)).resolve_left
    (by decide)

/-- C2: in a run of `Pulse`, whatever the connection does, the call of
`SetColor` number `n`, counted from 0, has the colors `Pulse` was called with
and the dimming 10 when `n` is even, 100 when `n` is odd. -/
theorem Pulse_dimming_alternates {σ : Type} (clk : Clock σ) (l : Light σ) (ctx : σ → Bool)
    (colors : Colors) (fuel : Nat) (s : St σ) (n : Nat) (c : Colors) (d : Int)
    (h : (setColorCalls ((pulseRun clk l ctx colors fuel s).state.trace.drop s.trace.length))[n]? =
      some (c, d)) :
    c = colors ∧ d = if n % 2 = 0 then 10 else 100 := by
  obtain ⟨k, new, -, htr, hsteps⟩ := pulseLoop_steps clk l ctx colors fuel lowDim s
  simp only [pulseRun] at h
  rw [htr, List.drop_left, ← setColorCalls_pulseSteps, hsteps] at h
  have := expectedSteps_calls colors k lowDim (Or.inl rfl) n c d h
  simpa [lowDim, pulseSwitch_low] using this

/-- C2 at a concrete input: on a closed connection, where every call of
`SetColor` fails, the calls of four iterations have the dimmings 10, 100, 10,
100, and the theorem gives the dimming of call number 3. -/
theorem Pulse_dimming_alternates_witness :
    setColorCalls (pulseRun tickClock closedLight (cancelledFrom 100)
        { White := 0, Red := 255, Blue := 0, Green := 100 } 4 ⟨0, []⟩).state.trace =
      [({ White := 0, Red := 255, Blue := 0, Green := 100 }, 10),
       ({ White := 0, Red := 255, Blue := 0, Green := 100 }, 100),
       ({ White := 0, Red := 255, Blue := 0, Green := 100 }, 10),
       ({ White := 0, Red := 255, Blue := 0, Green := 100 }, 100)] ∧
    ((100 : Int) = if 3 % 2 = 0 then 10 else 100) :=
  ⟨by decide,
   (Pulse_dimming_alternates tickClock closedLight (cancelledFrom 100)
    { White := 0, Red := 255, Blue := 0, Green := 100 } 4 ⟨0, []⟩ 3
    { White := 0, Red := 255, Blue := 0, Green := 100 } 100 (by decide)).2⟩

/-- C3: when the context is done at the top of the loop `Pulse` returns at
once, in the state it is in: no call of `SetColor`, no sleep, no event at
all; so `Pulse` started with a context that is already done returns its
initial state.  A run that has returned stopped at a boundary where the
context was done, and a longer run gives the same final state: nothing is
sent afterwards. -/
theorem Pulse_cancellation {σ : Type} (clk : Clock σ) (l : Light σ) (ctx : σ → Bool)
    (colors : Colors) (fuel : Nat) (s : St σ) :
    (∀ dim, ctx s.world = true → pulseLoop clk l ctx colors (fuel + 1) dim s = .returned s) ∧
    (ctx s.world = true → Pulse clk l ctx colors (fuel + 1) s = some s) ∧
    (∀ s', Pulse clk l ctx colors fuel s = some s' →
      ctx s'.world = true ∧ ∀ extra, Pulse clk l ctx colors (fuel + extra) s = some s') := by
  refine ⟨?_, ?_, ?_⟩
  · intro dim hc
    simp [pulseLoop, hc]
  · intro hc
    simp [Pulse, pulseRun, pulseLoop, hc]
  · intro s' h
    have hret : pulseLoop clk l ctx colors fuel lowDim s = .returned s' := by
      simp only [Pulse, pulseRun] at h
      split at h
      · rename_i s'' heq
        rw [heq]
        simpa using h
      · simp at h
    refine ⟨pulseLoop_returned clk l ctx colors fuel lowDim s s' hret, ?_⟩
    intro extra
    simp [Pulse, pulseRun, pulseLoop_stable clk l ctx colors fuel lowDim s s' extra hret]

/-- C3 at concrete inputs: with a context that is done from the start `Pulse`
returns the initial state with an empty trace; with a context done after one
iteration it returns after that iteration, under any larger bound too. -/
theorem Pulse_cancellation_witness :
    Pulse tickClock (respondingLight okReply) (cancelledFrom 0)
        { White := 0, Red := 255, Blue := 0, Green := 100 } 1 ⟨0, []⟩ = some ⟨0, []⟩ ∧
    (cancelledFrom 4 4 = true ∧
      ∀ extra, Pulse tickClock (respondingLight okReply) (cancelledFrom 4)
        { White := 0, Red := 255, Blue := 0, Green := 100 } (2 + extra) ⟨0, []⟩ =
        some ⟨4, [.callSetColor { White := 0, Red := 255, Blue := 0, Green := 100 } 10,
          .callSendMessage
            { Method := ascii "setPilot",
              Params := { State := true, Red := 255, Green := 100, Dimming := 10 } },
          .setDeadline 1000000000,
          .write (ascii ("\x7b\"method\":\"setPilot\",\"params\":"
            ++ "\x7b\"state\":true,\"r\":255,\"g\":100,\"dimming\":10\x7d\x7d")),
          .logDebugWritten 74, .read 1024, .logDebugReceived true (ascii "setPilot"),
          .sleep 800000000]⟩) :=
  ⟨(Pulse_cancellation tickClock (respondingLight okReply) (cancelledFrom 0)
      { White := 0, Red := 255, Blue := 0, Green := 100 } 0 ⟨0, []⟩).2.1 (by decide),
   (Pulse_cancellation tickClock (respondingLight okReply) (cancelledFrom 4)
      { White := 0, Red := 255, Blue := 0, Green := 100 } 2 ⟨0, []⟩).2.2
      ⟨4, [.callSetColor { White := 0, Red := 255, Blue := 0, Green := 100 } 10,
          .callSendMessage
            { Method := ascii "setPilot",
              Params := { State := true, Red := 255, Green := 100, Dimming := 10 } },
          .setDeadline 1000000000,
          .write (ascii ("\x7b\"method\":\"setPilot\",\"params\":"
            ++ "\x7b\"state\":true,\"r\":255,\"g\":100,\"dimming\":10\x7d\x7d")),
          .logDebugWritten 74, .read 1024, .logDebugReceived true (ascii "setPilot"),
          .sleep 800000000]⟩ (by decide)⟩

/-- C4: a failing `SetColor` does not end the loop.  At a boundary where the
context is not done, an iteration whose `SetColor` fails logs the failure,
sleeps and goes on with the same next dimming and the same sleep as an
iteration whose `SetColor` succeeds.  While the context is never done the
loop never returns and calls `SetColor` in every iteration, whatever the
connection does.  `Pulse` returns only at a boundary where the context is
done. -/
theorem Pulse_absorbs_failures {σ : Type} (clk : Clock σ) (l : Light σ) (ctx : σ → Bool)
    (colors : Colors) (fuel : Nat) (s : St σ) :
    (∀ dim, ctx s.world = false →
      (∀ err s1, SetColor clk l colors dim s = (some err, s1) →
        pulseLoop clk l ctx colors (fuel + 1) dim s =
          pulseLoop clk l ctx colors fuel (pulseSwitch dim).1
            ⟨clk.Sleep (Millisecond * (pulseSwitch dim).2) s1.world,
             s1.trace ++ [.logError err.Error, .sleep (Millisecond * (pulseSwitch dim).2)]⟩) ∧
      (∀ s1, SetColor clk l colors dim s = (none, s1) →
        pulseLoop clk l ctx colors (fuel + 1) dim s =
          pulseLoop clk l ctx colors fuel (pulseSwitch dim).1
            ⟨clk.Sleep (Millisecond * (pulseSwitch dim).2) s1.world,
             s1.trace ++ [.sleep (Millisecond * (pulseSwitch dim).2)]⟩)) ∧
    ((∀ w, ctx w = false) →
      Pulse clk l ctx colors fuel s = none ∧
      (setColorCalls ((pulseRun clk l ctx colors fuel s).state.trace.drop
        s.trace.length)).length = fuel) ∧
    (∀ s', Pulse clk l ctx colors fuel s = some s' → ctx s'.world = true) := by
  refine ⟨?_, ?_, ?_⟩
  · intro dim hc
    constructor
    · intro err s1 h
      simp [pulseLoop, hc, pulseDefault, h, St.emit]
    · intro s1 h
      simp [pulseLoop, hc, pulseDefault, h]
  · intro hctx
    obtain ⟨dim', s', new, hrun, htr, hsteps⟩ :=
      pulseLoop_never_done clk l ctx colors hctx fuel lowDim s
    constructor
    · simp [Pulse, pulseRun, hrun]
    · simp only [pulseRun, hrun, PulseResult.state]
      rw [htr, List.drop_left, ← setColorCalls_pulseSteps, hsteps,
        setColorCalls_expectedSteps_length]
  · intro s' h
    have hret : pulseLoop clk l ctx colors fuel lowDim s = .returned s' := by
      simp only [Pulse, pulseRun] at h
      split at h
      · rename_i s'' heq
        rw [heq]
        simpa using h
      · simp at h
    exact pulseLoop_returned clk l ctx colors fuel lowDim s s' hret

/-- C4 at a concrete input: on a closed connection, with a context that is
never done, `Pulse` has not returned after five iterations and has called
`SetColor` five times, though every call failed. -/
theorem Pulse_absorbs_failures_witness :
    Pulse tickClock closedLight (fun _ => false)
        { White := 0, Red := 255, Blue := 0, Green := 100 } 5 ⟨0, []⟩ = none ∧
    (setColorCalls ((pulseRun tickClock closedLight (fun _ => false)
        { White := 0, Red := 255, Blue := 0, Green := 100 } 5 ⟨0, []⟩).state.trace.drop 0)).length
      = 5 ∧
    (SetColor tickClock closedLight { White := 0, Red := 255, Blue := 0, Green := 100 } 10
        ⟨0, []⟩).1.map GoError.Error =
      some "unable to set light color: unable to set connection deadline" :=
  ⟨((Pulse_absorbs_failures tickClock closedLight (fun _ => false)
      { White := 0, Red := 255, Blue := 0, Green := 100 } 5 ⟨0, []⟩).2.1 (fun _ => rfl)).1,
   ((Pulse_absorbs_failures tickClock closedLight (fun _ => false)
      { White := 0, Red := 255, Blue := 0, Green := 100 } 5 ⟨0, []⟩).2.1 (fun _ => rfl)).2,
   by decide⟩

/-! ## UTF-8: a decoded multi-byte rune encodes back to its bytes -/

theorem isCont_iff (b : Nat) : isCont b = true ↔ 0x80 ≤ b ∧ b ≤ 0xBF := by
  simp [isCont]

theorem acceptLo_cases (b : Nat) :
    (b = 0xE0 ∧ acceptLo b = 0xA0) ∨ (b = 0xF0 ∧ acceptLo b = 0x90) ∨
      (b ≠ 0xE0 ∧ b ≠ 0xF0 ∧ acceptLo b = 0x80) := by
  unfold acceptLo
  split_ifs <;> simp_all

theorem acceptHi_cases (b : Nat) :
    (b = 0xED ∧ acceptHi b = 0x9F) ∨ (b = 0xF4 ∧ acceptHi b = 0x8F) ∨
      (b ≠ 0xED ∧ b ≠ 0xF4 ∧ acceptHi b = 0xBF) := by
  unfold acceptHi
  split_ifs <;> simp_all

/-- A multi-byte encoding that `decodeRune` accepts: its width is at least 2
and within the input, the rune is not ASCII and encodes back to exactly these
bytes, and the bytes decode the same way whatever follows them. -/
theorem decodeRune_multibyte (b : Nat) (rest : Bytes) (hb : ¬ b < 0x80)
    (hv : ¬ ((decodeRune (b :: rest)).1 = RuneError ∧ (decodeRune (b :: rest)).2 = 1)) :
    2 ≤ (decodeRune (b :: rest)).2 ∧
    (decodeRune (b :: rest)).2 ≤ (b :: rest).length ∧
    0x80 ≤ (decodeRune (b :: rest)).1 ∧
    encodeRune (decodeRune (b :: rest)).1 = (b :: rest).take (decodeRune (b :: rest)).2 ∧
    ∀ Y, decodeRune ((b :: rest).take (decodeRune (b :: rest)).2 ++ Y) = decodeRune (b :: rest) := by
  by_cases h2 : 0xC2 ≤ b ∧ b ≤ 0xDF
  · -- two bytes
    match rest with
    | [] => simp [decodeRune, hb, h2] at hv
    | b1 :: r =>
      by_cases hc : isCont b1 = true
      · have hc' := (isCont_iff b1).1 hc
        have hd : decodeRune (b :: b1 :: r) = (b % 32 * 64 + b1 % 64, 2) := by
          simp [decodeRune, hb, h2, hc]
        rw [hd]
        refine ⟨le_refl _, by simp, by simp only; omega, ?_, ?_⟩
        · simp only [encodeRune]
          rw [if_neg (by omega), if_pos (by omega)]
          simp only [List.take_succ_cons, List.take_zero]
          congr 1
          · omega
          · congr 1; omega
        · intro Y
          simp [decodeRune, hb, h2, hc]
      · simp [decodeRune, hb, h2, hc] at hv
  · by_cases h3 : 0xE0 ≤ b ∧ b ≤ 0xEF
    · -- three bytes
      match rest with
      | [] => simp [decodeRune, hb, h2, h3] at hv
      | [_] => simp [decodeRune, hb, h2, h3] at hv
      | b1 :: b2 :: r =>
        by_cases hc : acceptLo b ≤ b1 ∧ b1 ≤ acceptHi b ∧ isCont b2 = true
        · have hc2 := (isCont_iff b2).1 hc.2.2
          have hd : decodeRune (b :: b1 :: b2 :: r) =
              (b % 16 * 4096 + b1 % 64 * 64 + b2 % 64, 3) := by
            simp [decodeRune, hb, h2, h3, hc]
          rw [hd]
          have hlo := acceptLo_cases b
          have hhi := acceptHi_cases b
          refine ⟨by simp, by simp, by simp only; omega, ?_, ?_⟩
          · simp only [encodeRune]
            rw [if_neg (by omega), if_neg (by omega), if_neg (by omega), if_pos (by omega)]
            simp only [List.take_succ_cons, List.take_zero]
            congr 1
            · omega
            · congr 1
              · omega
              · congr 1; omega
          · intro Y
            simp [decodeRune, hb, h2, h3, hc]
        · simp [decodeRune, hb, h2, h3, hc] at hv
    · by_cases h4 : 0xF0 ≤ b ∧ b ≤ 0xF4
      · -- four bytes
        match rest with
        | [] => simp [decodeRune, hb, h2, h3, h4] at hv
        | [_] => simp [decodeRune, hb, h2, h3, h4] at hv
        | [_, _] => simp [decodeRune, hb, h2, h3, h4] at hv
        | b1 :: b2 :: b3 :: r =>
          by_cases hc : acceptLo b ≤ b1 ∧ b1 ≤ acceptHi b ∧ isCont b2 = true ∧ isCont b3 = true
          · have hc2 := (isCont_iff b2).1 hc.2.2.1
            have hc3 := (isCont_iff b3).1 hc.2.2.2
            have hd : decodeRune (b :: b1 :: b2 :: b3 :: r) =
                (b % 8 * 262144 + b1 % 64 * 4096 + b2 % 64 * 64 + b3 % 64, 4) := by
              simp [decodeRune, hb, h2, h3, h4, hc]
            rw [hd]
            have hlo := acceptLo_cases b
            have hhi := acceptHi_cases b
            refine ⟨by simp, by simp, by simp only; omega, ?_, ?_⟩
            · simp only [encodeRune]
              rw [if_neg (by omega), if_neg (by omega), if_neg (by omega), if_neg (by omega)]
              simp only [List.take_succ_cons, List.take_zero]
              congr 1
              · omega
              · congr 1
                · omega
                · congr 1
                  · omega
                  · congr 1; omega
            · intro Y
              simp [decodeRune, hb, h2, h3, h4, hc]
          · simp [decodeRune, hb, h2, h3, h4, hc] at hv
      · simp [decodeRune, hb, h2, h3, h4] at hv

/-! ## A string literal reads back as the string -/

/-- The decoder reads what the encoder writes for one ASCII byte as that byte. -/
theorem unquoteLoop_ascii (b : Nat) (hb : b < 0x80) (fuel : Nat) (Y : Bytes) :
    unquoteLoop (fuel + 1) ((if htmlSafe b then [b] else escapeByte b) ++ Y) =
      (unquoteLoop fuel Y).map (fun r => (b :: r.1, r.2)) := by
  interval_cases b <;>
    simp [unquoteLoop, htmlSafe, escapeByte, hexDigit, getu4, hexValue, isSurrogate,
      simpleEscape, encodeRune]

theorem unquoteLoop_multibyte (b : Nat) (hb : ¬ b < 0x80) (fuel : Nat) (rest : Bytes) :
    unquoteLoop (fuel + 1) (b :: rest) =
      (unquoteLoop fuel ((b :: rest).drop (decodeRune (b :: rest)).2)).map
        (fun r => (encodeRune (decodeRune (b :: rest)).1 ++ r.1, r.2)) := by
  have h1 : b ≠ 34 := by omega
  have h2 : b ≠ 92 := by omega
  have h3 : ¬ b < 0x20 := by omega
  simp only [unquoteLoop, h1, h2, h3, hb, if_false]

theorem unquoteLoop_separator (c : Nat) (hc : c = 0x2028 ∨ c = 0x2029) (fuel : Nat)
    (Y : Bytes) :
    unquoteLoop (fuel + 1) ([0x5C, 117, 50, 48, 50, hexDigit (c % 16)] ++ Y) =
      (unquoteLoop fuel Y).map (fun r => (encodeRune c ++ r.1, r.2)) := by
  rcases hc with rfl | rfl <;>
    simp [unquoteLoop, hexDigit, getu4, hexValue, isSurrogate]

/-- The decoder reads the body of a string literal the encoder wrote for
valid UTF-8, up to the closing quote, as the string itself. -/
theorem unquoteLoop_appendStringLoop (n : Nat) :
    ∀ (s : Bytes), s.length ≤ n → validUTF8Loop n s = true →
      ∀ (fuel : Nat) (X : Bytes), (appendStringLoop n s).length < fuel →
        unquoteLoop fuel (appendStringLoop n s ++ 34 :: X) = some (s, X) := by
  induction n with
  | zero =>
    intro s hlen _ fuel X hfuel
    match s, hlen with
    | [], _ =>
      obtain ⟨f, rfl⟩ : ∃ f, fuel = f + 1 := ⟨fuel - 1, by omega⟩
      simp [appendStringLoop, unquoteLoop]
  | succ n ih =>
    intro s hlen hvalid fuel X hfuel
    match s with
    | [] =>
      obtain ⟨f, rfl⟩ : ∃ f, fuel = f + 1 := ⟨fuel - 1, by omega⟩
      simp [appendStringLoop, unquoteLoop]
    | b :: rest =>
      obtain ⟨f, rfl⟩ : ∃ f, fuel = f + 1 := ⟨fuel - 1, by omega⟩
      simp only [List.length_cons] at hlen
      by_cases hb : b < 0x80
      · have hv : validUTF8Loop n rest = true := by
          have hne : b ≠ RuneError := by unfold RuneError; omega
          simpa [validUTF8Loop, decodeRune, hb, hne] using hvalid
        have henc : appendStringLoop (n + 1) (b :: rest) =
            (if htmlSafe b then [b] else escapeByte b) ++ appendStringLoop n rest := by
          simp [appendStringLoop, hb]
        have hpre : 1 ≤ (if htmlSafe b then [b] else escapeByte b).length := by
          unfold escapeByte
          split_ifs <;> simp
        rw [henc, List.length_append] at hfuel
        rw [henc, List.append_assoc, unquoteLoop_ascii b hb,
          ih rest (by omega) hv f X (by omega)]
        rfl
      · have hvalid' : ¬ ((decodeRune (b :: rest)).1 = RuneError ∧
            (decodeRune (b :: rest)).2 = 1) ∧
            validUTF8Loop n ((b :: rest).drop (decodeRune (b :: rest)).2) = true := by
          simp only [validUTF8Loop] at hvalid
          by_cases hbad : (decodeRune (b :: rest)).1 = RuneError ∧
              (decodeRune (b :: rest)).2 = 1
          · simp [hbad] at hvalid
          · exact ⟨hbad, by simpa [hbad] using hvalid⟩
        obtain ⟨hbad, hv⟩ := hvalid'
        obtain ⟨hsz2, hszl, -, henc, hdec⟩ := decodeRune_multibyte b rest hb hbad
        have hszl' : (decodeRune (b :: rest)).2 ≤ rest.length + 1 := by simpa using hszl
        have hdl : ((b :: rest).drop (decodeRune (b :: rest)).2).length ≤ n := by
          simp only [List.length_drop, List.length_cons]; omega
        have hih := ih _ hdl hv f X
        have hsplit : (b :: rest).take (decodeRune (b :: rest)).2 ++
            (b :: rest).drop (decodeRune (b :: rest)).2 = b :: rest := List.take_append_drop _ _
        by_cases hsep : (decodeRune (b :: rest)).1 = 0x2028 ∨ (decodeRune (b :: rest)).1 = 0x2029
        · have happ : appendStringLoop (n + 1) (b :: rest) =
              [0x5C, 117, 50, 48, 50, hexDigit ((decodeRune (b :: rest)).1 % 16)] ++
                appendStringLoop n ((b :: rest).drop (decodeRune (b :: rest)).2) := by
            simp only [appendStringLoop, hb, if_false]
            rw [if_neg hbad, if_pos hsep]
          rw [happ, List.length_append] at hfuel
          rw [happ, List.append_assoc, unquoteLoop_separator _ hsep,
            hih (by simp only [List.length_cons] at hfuel; omega), henc]
          simp only [Option.map_some']
          rw [hsplit]
        · have happ : appendStringLoop (n + 1) (b :: rest) =
              (b :: rest).take (decodeRune (b :: rest)).2 ++
                appendStringLoop n ((b :: rest).drop (decodeRune (b :: rest)).2) := by
            simp only [appendStringLoop, hb, if_false]
            rw [if_neg hbad, if_neg hsep]
          obtain ⟨k, hk⟩ : ∃ k, (decodeRune (b :: rest)).2 = k + 1 :=
            ⟨(decodeRune (b :: rest)).2 - 1, by omega⟩
          have htake : (b :: rest).take (decodeRune (b :: rest)).2 = b :: rest.take k := by
            rw [hk]; rfl
          have hd := hdec (appendStringLoop n ((b :: rest).drop (decodeRune (b :: rest)).2)
            ++ 34 :: X)
          rw [happ, List.append_assoc]
          rw [htake] at hd ⊢
          rw [List.cons_append] at hd ⊢
          rw [unquoteLoop_multibyte b hb, hd]
          have hdrop : (b :: (rest.take k ++ (appendStringLoop n
              ((b :: rest).drop (decodeRune (b :: rest)).2) ++ 34 :: X))).drop
              (decodeRune (b :: rest)).2 =
              appendStringLoop n ((b :: rest).drop (decodeRune (b :: rest)).2) ++ 34 :: X := by
            show ((b :: rest.take k) ++ (appendStringLoop n
              ((b :: rest).drop (decodeRune (b :: rest)).2) ++ 34 :: X)).drop
              (decodeRune (b :: rest)).2 = _
            rw [← htake]
            apply List.drop_left'
            rw [List.length_take]
            exact Nat.min_eq_left hszl
          have hfuel' : (appendStringLoop n
              ((b :: rest).drop (decodeRune (b :: rest)).2)).length < f := by
            rw [happ, List.length_append, List.length_take, Nat.min_eq_left hszl] at hfuel
            omega
          rw [hdrop, hih hfuel', henc]
          simp only [Option.map_some']
          rw [hsplit]

/-- A string literal the encoder wrote for valid UTF-8 reads back as the
string. -/
theorem unquote_appendString (s : Bytes) (hvalid : validUTF8 s = true) (X : Bytes) :
    ∃ body, appendString s ++ X = 34 :: body ∧ unquote body = some (s, X) := by
  refine ⟨appendStringLoop s.length s ++ 34 :: X, by simp [appendString], ?_⟩
  unfold unquote
  apply unquoteLoop_appendStringLoop s.length s (le_refl _) hvalid
  simp only [List.length_append, List.length_cons]
  omega

/-! ## A number literal reads back as the number -/

/-- The decimal digits the formatter writes: at least one, no leading zero
unless the number is zero, and they read back as the number. -/
theorem formatBits_spec (fuel : Nat) :
    ∀ (u : Nat) (acc : Bytes), u < fuel →
      ∃ ds, formatBits fuel u acc = ds ++ acc ∧
        (∀ d ∈ ds, 48 ≤ d ∧ d ≤ 57) ∧
        ((u = 0 ∧ ds = [48]) ∨ (1 ≤ u ∧ ∃ d ds', ds = d :: ds' ∧ 49 ≤ d ∧ d ≤ 57)) ∧
        ∀ (Y : Bytes) (a : Nat),
          parseDigits (ds ++ Y) a = parseDigits Y (a * 10 ^ ds.length + u) := by
  induction fuel with
  | zero => intro u acc h; omega
  | succ fuel ih =>
    intro u acc hu
    by_cases h10 : u < 10
    · refine ⟨[48 + u], by simp [formatBits, h10], ?_, ?_, ?_⟩
      · intro d hd
        simp only [List.mem_singleton] at hd
        omega
      · by_cases h0 : u = 0
        · left; exact ⟨h0, by simp [h0]⟩
        · right; exact ⟨by omega, 48 + u, [], rfl, by omega, by omega⟩
      · intro Y a
        have h1 : 48 ≤ 48 + u ∧ 48 + u ≤ 57 := by omega
        simp [parseDigits, h1]
    · obtain ⟨ds, hds, hdig, hhead, hparse⟩ := ih (u / 10) ((48 + u % 10) :: acc) (by omega)
      refine ⟨ds ++ [48 + u % 10], by simp [formatBits, h10, hds], ?_, ?_, ?_⟩
      · intro d hd
        rcases List.mem_append.1 hd with hd | hd
        · exact hdig d hd
        · simp only [List.mem_singleton] at hd
          omega
      · right
        rcases hhead with ⟨h0, -⟩ | ⟨-, d, ds', rfl, hd1, hd2⟩
        · omega
        · exact ⟨by omega, d, ds' ++ [48 + u % 10], rfl, hd1, hd2⟩
      · intro Y a
        have h1 : 48 ≤ 48 + u % 10 ∧ 48 + u % 10 ≤ 57 := by omega
        rw [List.append_assoc, hparse]
        simp only [List.singleton_append, parseDigits, h1, and_self, if_true,
          List.length_append, List.length_singleton]
        congr 1
        rw [pow_succ]
        have := Nat.div_add_mod u 10
        have e : 48 + u % 10 - 48 = u % 10 := by omega
        rw [e]
        nlinarith [Nat.div_add_mod u 10]

theorem formatUint_spec (u : Nat) :
    ∃ ds, formatUint u = ds ∧
      (∀ d ∈ ds, 48 ≤ d ∧ d ≤ 57) ∧
      ((u = 0 ∧ ds = [48]) ∨ (1 ≤ u ∧ ∃ d ds', ds = d :: ds' ∧ 49 ≤ d ∧ d ≤ 57)) ∧
      parseDigits ds 0 = some u := by
  obtain ⟨ds, hds, hdig, hhead, hparse⟩ := formatBits_spec (u + 1) u [] (by omega)
  refine ⟨ds, by simp [formatUint, hds], hdig, hhead, ?_⟩
  have := hparse [] 0
  simpa [parseDigits] using this

theorem spanDigits_digits (ds : Bytes) (hdig : ∀ d ∈ ds, 48 ≤ d ∧ d ≤ 57) (c : Nat)
    (hc : ¬ (48 ≤ c ∧ c ≤ 57)) (Y : Bytes) :
    spanDigits (ds ++ c :: Y) = (ds, c :: Y) := by
  induction ds with
  | nil => simp [spanDigits, hc]
  | cons d ds ih =>
    have hd := hdig d (List.mem_cons_self _ _)
    have ih' := ih (fun x hx => hdig x (List.mem_cons_of_mem _ hx))
    simp [spanDigits, hd, ih']

/-- The scanner reads the literal the formatter wrote, up to a comma or a
closing brace. -/
theorem scanNumber_formatInt (v : Int) (c : Nat) (hc : c = 44 ∨ c = 125) (Y : Bytes) :
    scanNumber (formatInt v ++ c :: Y) = some (formatInt v, c :: Y) := by
  have hcd : ¬ (48 ≤ c ∧ c ≤ 57) := by omega
  have hunsigned : ∀ u, scanUnsigned (formatUint u ++ c :: Y) = some (formatUint u, c :: Y) := by
    intro u
    obtain ⟨ds, hds, hdig, hhead, -⟩ := formatUint_spec u
    rw [hds]
    have hfrac : scanFraction (c :: Y) = some ([], c :: Y) := by
      rcases hc with rfl | rfl <;> simp [scanFraction]
    have hexp : scanExponent (c :: Y) = some ([], c :: Y) := by
      rcases hc with rfl | rfl <;> simp [scanExponent]
    rcases hhead with ⟨-, rfl⟩ | ⟨-, d, ds', rfl, hd1, hd2⟩
    · simp [scanUnsigned, scanIntPart, hfrac, hexp]
    · have hsp := spanDigits_digits ds' (fun x hx => hdig x (List.mem_cons_of_mem _ hx)) c hcd Y
      have hd48 : d ≠ 48 := by omega
      simp [scanUnsigned, scanIntPart, hd48, hd1, hd2, hsp, hfrac, hexp]
  unfold formatInt
  split_ifs with hneg
  · simp [scanNumber, hunsigned]
  · obtain ⟨ds, hds, hdig, hhead, -⟩ := formatUint_spec v.natAbs
    have h45 : ∀ d ds', formatUint v.natAbs = d :: ds' → d ≠ 45 := by
      intro d ds' h
      have := hdig d (by rw [← hds, h]; exact List.mem_cons_self _ _)
      omega
    have hu := hunsigned v.natAbs
    rcases hhead with ⟨-, rfl⟩ | ⟨-, d, ds', rfl, hd1, hd2⟩
    · rw [hds] at hu ⊢
      simpa [scanNumber] using hu
    · rw [hds] at hu ⊢
      have : d ≠ 45 := by omega
      simp only [List.cons_append] at hu ⊢
      unfold scanNumber
      split
      · rename_i heq
        simp only [List.cons.injEq] at heq
        omega
      · exact hu

/-- The literal the formatter wrote for an `int64` parses to the same value. -/
theorem parseInt64_formatInt (v : Int) (hlo : -(2 : Int) ^ 63 ≤ v) (hhi : v < (2 : Int) ^ 63) :
    parseInt64 (formatInt v) = some v := by
  obtain ⟨ds, hds, hdig, hhead, hparse⟩ := formatUint_spec v.natAbs
  unfold formatInt
  split_ifs with hneg
  · rw [hds]
    rcases hhead with ⟨h0, -⟩ | ⟨-, d, ds', rfl, hd1, hd2⟩
    · omega
    · have hle : v.natAbs ≤ 2 ^ 63 := by omega
      have hval : -(v.natAbs : Int) = v := by omega
      simp only [parseInt64, hparse]
      rw [if_pos hle, hval]
  · rw [hds]
    have hlt : v.natAbs < 2 ^ 63 := by omega
    have hval : (v.natAbs : Int) = v := by omega
    rcases hhead with ⟨-, rfl⟩ | ⟨-, d, ds', rfl, hd1, hd2⟩
    · have : v.natAbs = 0 := by simpa [parseDigits] using hparse.symm
      have hv0 : v = 0 := by omega
      subst hv0
      decide
    · have : d ≠ 45 := by omega
      unfold parseInt64
      split
      · rename_i heq; simp at heq
      · rename_i heq
        simp only [List.cons.injEq] at heq
        omega
      · rename_i d' ds'' _ heq
        simp only [List.cons.injEq] at heq
        obtain ⟨rfl, rfl⟩ := heq
        simp only [hparse]
        rw [if_pos hlt, hval]

/-! ## An object reads back as its members -/

theorem skipSpace_cons (b : Nat) (rest : Bytes) (hb : isSpace b = false) :
    skipSpace (b :: rest) = b :: rest := by
  simp [skipSpace, hb]

theorem membersText_cons_cons (m m' : Bytes × Bytes × JValue)
    (rest : List (Bytes × Bytes × JValue)) :
    membersText (m :: m' :: rest) = memberText m.1 m.2.1 ++ 44 :: membersText (m' :: rest) := rfl

theorem membersText_head (m : Bytes × Bytes × JValue) (rest : List (Bytes × Bytes × JValue)) :
    ∃ tail, membersText (m :: rest) = 34 :: tail := by
  cases rest with
  | nil => exact ⟨_, rfl⟩
  | cons m' rest => exact ⟨_, rfl⟩

/-- The decoder reads the text of a non-empty list of members, up to the
closing brace, as these members. -/
theorem parseMembers_membersText (n : Nat) (ms : List (Bytes × Bytes × JValue)) :
    ∀ (m : Bytes × Bytes × JValue),
      (∀ x ∈ m :: ms, ReadsAsKey x.1 ∧ ReadsAsValue n x.2.1 x.2.2) →
      ∀ (fuel : Nat) (X : Bytes), ms.length + 1 + n ≤ fuel →
        parseMembers fuel (membersText (m :: ms) ++ 125 :: X) =
          some ((m :: ms).map (fun x => (x.1, x.2.2)), X) := by
  induction ms with
  | nil =>
    intro m hm fuel X hfuel
    obtain ⟨hkey, ⟨b, vrest, hvb, hsp⟩, hval⟩ := hm m (List.mem_cons_self _ _)
    obtain ⟨f, rfl⟩ : ∃ f, fuel = f + 1 := ⟨fuel - 1, by simp at hfuel; omega⟩
    have hv := hval f (by simp at hfuel; omega) 125 X (Or.inr rfl)
    have hk := hkey (58 :: (m.2.1 ++ 125 :: X))
    have htext : membersText [m] ++ 125 :: X = 34 :: (m.1 ++ 34 :: 58 :: (m.2.1 ++ 125 :: X)) := by
      simp [membersText, memberText]
    rw [htext]
    simp only [parseMembers, if_true]
    rw [hk]
    simp only []
    rw [skipSpace_cons 58 _ (by decide)]
    simp only [if_true]
    rw [hvb] at hv ⊢
    rw [List.cons_append, skipSpace_cons b _ hsp, ← List.cons_append, hv]
    simp only []
    rw [skipSpace_cons 125 _ (by decide)]
    simp
  | cons m' ms ih =>
    intro m hm fuel X hfuel
    obtain ⟨hkey, ⟨b, vrest, hvb, hsp⟩, hval⟩ := hm m (List.mem_cons_self _ _)
    obtain ⟨f, rfl⟩ : ∃ f, fuel = f + 1 := ⟨fuel - 1, by simp at hfuel; omega⟩
    have hih := ih m' (fun x hx => hm x (List.mem_cons_of_mem _ hx)) f X
      (by simp at hfuel ⊢; omega)
    have hv := hval f (by simp at hfuel; omega) 44 (membersText (m' :: ms) ++ 125 :: X)
      (Or.inl rfl)
    have hk := hkey (58 :: (m.2.1 ++ 44 :: (membersText (m' :: ms) ++ 125 :: X)))
    obtain ⟨tail, htail⟩ := membersText_head m' ms
    have htext : membersText (m :: m' :: ms) ++ 125 :: X =
        34 :: (m.1 ++ 34 :: 58 :: (m.2.1 ++ 44 :: (membersText (m' :: ms) ++ 125 :: X))) := by
      rw [membersText_cons_cons]
      simp [memberText]
    rw [htext]
    simp only [parseMembers, if_true]
    rw [hk]
    simp only []
    rw [skipSpace_cons 58 _ (by decide)]
    simp only [if_true]
    rw [hvb] at hv ⊢
    rw [List.cons_append, skipSpace_cons b _ hsp, ← List.cons_append, hv]
    simp only []
    rw [skipSpace_cons 44 _ (by decide)]
    simp only [if_true]
    have hsk : skipSpace (membersText (m' :: ms) ++ 125 :: X) =
        membersText (m' :: ms) ++ 125 :: X := by
      rw [htail, List.cons_append, skipSpace_cons 34 _ (by decide)]
    rw [hsk, hih]
    simp

/-- The decoder reads the text of an object with at least one member as the
object. -/
theorem parseValue_object (n : Nat) (m : Bytes × Bytes × JValue)
    (ms : List (Bytes × Bytes × JValue))
    (hm : ∀ x ∈ m :: ms, ReadsAsKey x.1 ∧ ReadsAsValue n x.2.1 x.2.2)
    (fuel : Nat) (X : Bytes) (hfuel : ms.length + 2 + n ≤ fuel) :
    parseValue fuel (123 :: (membersText (m :: ms) ++ 125 :: X)) =
      some (.object ((m :: ms).map (fun x => (x.1, x.2.2))), X) := by
  obtain ⟨f, rfl⟩ : ∃ f, fuel = f + 1 := ⟨fuel - 1, by omega⟩
  obtain ⟨tail, htail⟩ := membersText_head m ms
  have hp := parseMembers_membersText n ms m hm f X (by omega)
  rw [htail] at hp ⊢
  simp only [parseValue, if_true, List.cons_append]
  rw [skipSpace_cons 34 _ (by decide)]
  simp only []
  rw [if_neg (by decide), ← List.cons_append, hp]
  simp

/-! ## The values of a message read back -/

theorem readsAsKey_of_plain (k : Bytes) (h1 : validUTF8 k = true)
    (h2 : appendStringLoop k.length k = k) : ReadsAsKey k := by
  intro X
  have := unquoteLoop_appendStringLoop k.length k (le_refl _) h1 (k ++ 34 :: X).length X
    (by rw [h2]; simp)
  rw [h2] at this
  exact this

theorem readsAsKey_names :
    ReadsAsKey (ascii "method") ∧ ReadsAsKey (ascii "params") ∧ ReadsAsKey (ascii "state") ∧
    ReadsAsKey (ascii "w") ∧ ReadsAsKey (ascii "r") ∧ ReadsAsKey (ascii "b") ∧
    ReadsAsKey (ascii "g") ∧ ReadsAsKey (ascii "dimming") :=
  ⟨readsAsKey_of_plain (ascii "method") (by decide) (by decide),
   readsAsKey_of_plain (ascii "params") (by decide) (by decide),
   readsAsKey_of_plain (ascii "state") (by decide) (by decide),
   readsAsKey_of_plain (ascii "w") (by decide) (by decide),
   readsAsKey_of_plain (ascii "r") (by decide) (by decide),
   readsAsKey_of_plain (ascii "b") (by decide) (by decide),
   readsAsKey_of_plain (ascii "g") (by decide) (by decide),
   readsAsKey_of_plain (ascii "dimming") (by decide) (by decide)⟩

theorem formatInt_head (v : Int) :
    ∃ b rest, formatInt v = b :: rest ∧ (b = 45 ∨ (48 ≤ b ∧ b ≤ 57)) := by
  obtain ⟨ds, hds, hdig, hhead, -⟩ := formatUint_spec v.natAbs
  unfold formatInt
  split_ifs
  · exact ⟨45, _, rfl, Or.inl rfl⟩
  · rw [hds]
    rcases hhead with ⟨-, rfl⟩ | ⟨-, d, ds', rfl, hd1, hd2⟩
    · exact ⟨48, [], rfl, Or.inr (by omega)⟩
    · exact ⟨d, ds', rfl, Or.inr (by omega)⟩

theorem readsAsValue_int (v : Int) : ReadsAsValue 1 (formatInt v) (.number (formatInt v)) := by
  obtain ⟨b, rest, hb, hrange⟩ := formatInt_head v
  refine ⟨⟨b, rest, hb, ?_⟩, ?_⟩
  · rcases hrange with rfl | h
    · decide
    · simp only [isSpace, Bool.or_eq_false_iff, beq_eq_false_iff_ne]
      omega
  · intro fuel hfuel c Y hc
    obtain ⟨f, rfl⟩ : ∃ f, fuel = f + 1 := ⟨fuel - 1, by omega⟩
    have hs := scanNumber_formatInt v c hc Y
    rw [hb] at hs ⊢
    have h1 : b ≠ 123 := by omega
    have h2 : b ≠ 91 := by omega
    have h3 : b ≠ 34 := by omega
    have h4 : b ≠ 116 := by omega
    have h5 : b ≠ 102 := by omega
    have h6 : b ≠ 110 := by omega
    simp only [List.cons_append, parseValue, h1, h2, h3, h4, h5, h6, if_false] at hs ⊢
    rw [hs]
    rfl

theorem readsAsValue_bool (b : Bool) :
    ReadsAsValue 1 (if b then ascii "true" else ascii "false") (.bool b) := by
  cases b
  · refine ⟨⟨102, ascii "alse", rfl, by decide⟩, ?_⟩
    intro fuel hfuel c Y _
    obtain ⟨f, rfl⟩ : ∃ f, fuel = f + 1 := ⟨fuel - 1, by omega⟩
    simp [parseValue, ascii, expectWord]
  · refine ⟨⟨116, ascii "rue", rfl, by decide⟩, ?_⟩
    intro fuel hfuel c Y _
    obtain ⟨f, rfl⟩ : ∃ f, fuel = f + 1 := ⟨fuel - 1, by omega⟩
    simp [parseValue, ascii, expectWord]

theorem readsAsValue_string (s : Bytes) (hvalid : validUTF8 s = true) :
    ReadsAsValue 1 (appendString s) (.string s) := by
  refine ⟨⟨34, _, rfl, by decide⟩, ?_⟩
  intro fuel hfuel c Y _
  obtain ⟨f, rfl⟩ : ∃ f, fuel = f + 1 := ⟨fuel - 1, by omega⟩
  obtain ⟨body, hbody, hun⟩ := unquote_appendString s hvalid (c :: Y)
  rw [hbody]
  simp [parseValue, hun]

theorem readsAsValue_mono (n n' : Nat) (h : n ≤ n') (text : Bytes) (v : JValue)
    (hv : ReadsAsValue n text v) : ReadsAsValue n' text v :=
  ⟨hv.1, fun fuel hfuel c Y hc => hv.2 fuel (le_trans h hfuel) c Y hc⟩

theorem optionalMember_reads (name : String) (v : Int) (hk : ReadsAsKey (ascii name)) :
    ∀ x ∈ optionalMember name v, ReadsAsKey x.1 ∧ ReadsAsValue 1 x.2.1 x.2.2 := by
  intro x hx
  unfold optionalMember at hx
  split_ifs at hx
  · simp at hx
  · simp only [List.mem_singleton] at hx
    subst hx
    exact ⟨hk, readsAsValue_int v⟩

theorem optionalMember_length (name : String) (v : Int) : (optionalMember name v).length ≤ 1 := by
  unfold optionalMember
  split_ifs <;> simp

theorem paramsMembers_reads (p : Params) :
    ∀ x ∈ paramsMembers p, ReadsAsKey x.1 ∧ ReadsAsValue 1 x.2.1 x.2.2 := by
  intro x hx
  simp only [paramsMembers, List.mem_cons, List.mem_append] at hx
  obtain ⟨-, -, hstate, hw, hr, hb, hg, hd⟩ := readsAsKey_names
  rcases hx with rfl | ((((hx | hx) | hx) | hx) | hx)
  · exact ⟨hstate, readsAsValue_bool _⟩
  · exact optionalMember_reads "w" _ hw x hx
  · exact optionalMember_reads "r" _ hr x hx
  · exact optionalMember_reads "b" _ hb x hx
  · exact optionalMember_reads "g" _ hg x hx
  · exact optionalMember_reads "dimming" _ hd x hx

theorem paramsMembers_length (p : Params) : (paramsMembers p).length ≤ 6 := by
  have h1 := optionalMember_length "w" p.White
  have h2 := optionalMember_length "r" p.Red
  have h3 := optionalMember_length "b" p.Blue
  have h4 := optionalMember_length "g" p.Green
  have h5 := optionalMember_length "dimming" p.Dimming
  simp only [paramsMembers, List.length_cons, List.length_append]
  omega

theorem messageMembers_reads (m : Message) (hvalid : validUTF8 m.Method = true) :
    ∀ x ∈ messageMembers m, ReadsAsKey x.1 ∧ ReadsAsValue 8 x.2.1 x.2.2 := by
  intro x hx
  simp only [messageMembers, List.mem_cons, List.mem_singleton, List.not_mem_nil, or_false] at hx
  rcases hx with rfl | rfl
  · exact ⟨readsAsKey_names.1,
      readsAsValue_mono 1 8 (by omega) _ _ (readsAsValue_string _ hvalid)⟩
  · refine ⟨readsAsKey_names.2.1, ⟨123, _, rfl, by decide⟩, ?_⟩
    intro fuel hfuel c Y _
    have hlen := paramsMembers_length m.Params
    have hreads := paramsMembers_reads m.Params
    generalize hms : paramsMembers m.Params = ms at hlen hreads
    match ms, hms with
    | [], hms => simp [paramsMembers] at hms
    | x :: xs, _ =>
      have := parseValue_object 1 x xs hreads fuel (c :: Y)
        (by simp only [List.length_cons] at hlen; omega)
      simpa using this

/-! ## The encoding of a message is the text of its members -/

theorem encode_params (p : Params) :
    encodeValue p.reflect = 123 :: (membersText (paramsMembers p) ++ [125]) := by
  obtain ⟨st, w, r, b, g, d⟩ := p
  simp only [Params.reflect, encodeValue, encodeFields, isEmptyValue, paramsMembers,
    optionalMember]
  by_cases h1 : w = 0 <;> by_cases h2 : r = 0 <;> by_cases h3 : b = 0 <;>
    by_cases h4 : g = 0 <;> by_cases h5 : d = 0 <;>
    simp [h1, h2, h3, h4, h5, membersText, memberText]

theorem encode_message (m : Message) :
    encodeValue m.reflect = 123 :: (membersText (messageMembers m) ++ [125]) := by
  have hp := encode_params m.Params
  obtain ⟨fs, hfs⟩ : ∃ fs, m.Params.reflect = .struct fs := ⟨_, rfl⟩
  have hmm : membersText (messageMembers m) =
      34 :: ascii "method" ++ 34 :: 58 :: appendString m.Method ++
        44 :: (34 :: ascii "params" ++ 34 :: 58 :: encodeValue m.Params.reflect) := by
    rw [hp]
    rfl
  rw [hmm]
  simp only [Message.reflect]
  rw [hfs]
  simp [encodeValue, encodeFields, isEmptyValue]

/-! ## Decoding the encoding of a message -/

theorem parseJSON_encode (m : Message) (hvalid : validUTF8 m.Method = true) :
    parseJSON (encodeValue m.reflect) =
      some (.object ((messageMembers m).map (fun x => (x.1, x.2.2)))) := by
  have henc := encode_message m
  have hlen : 11 ≤ (123 :: (membersText (messageMembers m) ++ [125])).length + 1 := by
    simp only [messageMembers, membersText, memberText, List.length_cons, List.length_append]
    omega
  have hp : parseValue ((123 :: (membersText (messageMembers m) ++ [125])).length + 1)
      (123 :: (membersText (messageMembers m) ++ [125])) =
      some (.object ((messageMembers m).map (fun x => (x.1, x.2.2))), []) :=
    parseValue_object 8 _ _ (messageMembers_reads m hvalid) _ [] (by simpa using hlen)
  unfold parseJSON
  rw [henc, skipSpace_cons 123 _ (by decide), hp]
  rfl

theorem storeInt_formatInt (field : String) (old v : Int) (hv : IsInt64 v) :
    storeInt field old (.number (formatInt v)) = .ok v := by
  simp [storeInt, parseInt64_formatInt v hv.1 hv.2]

theorem store_optionalMember_w (v : Int) (hv : IsInt64 v) (q : Params)
    (rest : List (Bytes × JValue)) (hq : q.White = 0) :
    storeMembers Params.storeField q
        ((optionalMember "w" v).map (fun x => (x.1, x.2.2)) ++ rest) =
      storeMembers Params.storeField { q with White := v } rest := by
  unfold optionalMember
  split_ifs with h0
  · simp only [List.map_nil, List.nil_append]
    rw [h0, ← hq]
  · simp only [List.map_cons, List.map_nil, List.singleton_append, storeMembers]
    unfold Params.storeField
    rw [if_neg (by decide), if_pos (by decide), storeInt_formatInt _ _ _ hv]
    rfl

theorem store_optionalMember_r (v : Int) (hv : IsInt64 v) (q : Params)
    (rest : List (Bytes × JValue)) (hq : q.Red = 0) :
    storeMembers Params.storeField q
        ((optionalMember "r" v).map (fun x => (x.1, x.2.2)) ++ rest) =
      storeMembers Params.storeField { q with Red := v } rest := by
  unfold optionalMember
  split_ifs with h0
  · simp only [List.map_nil, List.nil_append]
    rw [h0, ← hq]
  · simp only [List.map_cons, List.map_nil, List.singleton_append, storeMembers]
    unfold Params.storeField
    rw [if_neg (by decide), if_neg (by decide), if_pos (by decide), storeInt_formatInt _ _ _ hv]
    rfl

theorem store_optionalMember_b (v : Int) (hv : IsInt64 v) (q : Params)
    (rest : List (Bytes × JValue)) (hq : q.Blue = 0) :
    storeMembers Params.storeField q
        ((optionalMember "b" v).map (fun x => (x.1, x.2.2)) ++ rest) =
      storeMembers Params.storeField { q with Blue := v } rest := by
  unfold optionalMember
  split_ifs with h0
  · simp only [List.map_nil, List.nil_append]
    rw [h0, ← hq]
  · simp only [List.map_cons, List.map_nil, List.singleton_append, storeMembers]
    unfold Params.storeField
    rw [if_neg (by decide), if_neg (by decide), if_neg (by decide), if_pos (by decide), storeInt_formatInt _ _ _ hv]
    rfl

theorem store_optionalMember_g (v : Int) (hv : IsInt64 v) (q : Params)
    (rest : List (Bytes × JValue)) (hq : q.Green = 0) :
    storeMembers Params.storeField q
        ((optionalMember "g" v).map (fun x => (x.1, x.2.2)) ++ rest) =
      storeMembers Params.storeField { q with Green := v } rest := by
  unfold optionalMember
  split_ifs with h0
  · simp only [List.map_nil, List.nil_append]
    rw [h0, ← hq]
  · simp only [List.map_cons, List.map_nil, List.singleton_append, storeMembers]
    unfold Params.storeField
    rw [if_neg (by decide), if_neg (by decide), if_neg (by decide), if_neg (by decide), if_pos (by decide), storeInt_formatInt _ _ _ hv]
    rfl

theorem store_optionalMember_dimming (v : Int) (hv : IsInt64 v) (q : Params)
    (rest : List (Bytes × JValue)) (hq : q.Dimming = 0) :
    storeMembers Params.storeField q
        ((optionalMember "dimming" v).map (fun x => (x.1, x.2.2)) ++ rest) =
      storeMembers Params.storeField { q with Dimming := v } rest := by
  unfold optionalMember
  split_ifs with h0
  · simp only [List.map_nil, List.nil_append]
    rw [h0, ← hq]
  · simp only [List.map_cons, List.map_nil, List.singleton_append, storeMembers]
    unfold Params.storeField
    rw [if_neg (by decide), if_neg (by decide), if_neg (by decide), if_neg (by decide), if_neg (by decide), if_pos (by decide), storeInt_formatInt _ _ _ hv]
    rfl

theorem store_paramsMembers (p : Params) (hw : IsInt64 p.White) (hr : IsInt64 p.Red)
    (hb : IsInt64 p.Blue) (hg : IsInt64 p.Green) (hd : IsInt64 p.Dimming) :
    Params.store {} (.object ((paramsMembers p).map (fun x => (x.1, x.2.2)))) = .ok p := by
  have hstate : Params.storeField {} (ascii "state") (.bool p.State) =
      .ok { State := p.State } := by
    unfold Params.storeField
    rw [if_pos (by decide)]
    rfl
  have hfinal := store_optionalMember_dimming p.Dimming hd
    { State := p.State, White := p.White, Red := p.Red, Blue := p.Blue, Green := p.Green } [] rfl
  rw [List.append_nil] at hfinal
  simp only [Params.store, paramsMembers, List.map_cons, List.map_append, storeMembers, hstate]
  rw [List.append_assoc, List.append_assoc, List.append_assoc,
    store_optionalMember_w p.White hw _ _ rfl, store_optionalMember_r p.Red hr _ _ rfl,
    store_optionalMember_b p.Blue hb _ _ rfl, store_optionalMember_g p.Green hg _ _ rfl,
    hfinal]
  rfl

theorem store_messageMembers (m : Message) (hw : IsInt64 m.Params.White)
    (hr : IsInt64 m.Params.Red) (hb : IsInt64 m.Params.Blue) (hg : IsInt64 m.Params.Green)
    (hd : IsInt64 m.Params.Dimming) :
    Message.store {} (.object ((messageMembers m).map (fun x => (x.1, x.2.2)))) = .ok m := by
  have hp := store_paramsMembers m.Params hw hr hb hg hd
  have hmethod : Message.storeField {} (ascii "method") (.string m.Method) =
      .ok { Method := m.Method } := by
    unfold Message.storeField
    rw [if_pos (by decide)]
    rfl
  have hparams : Message.storeField { Method := m.Method } (ascii "params")
      (.object ((paramsMembers m.Params).map (fun x => (x.1, x.2.2)))) = .ok m := by
    unfold Message.storeField
    rw [if_neg (by decide), if_pos (by decide)]
    show (Params.store {} _).map _ = _
    rw [hp]
    rfl
  simp only [Message.store, messageMembers, List.map_cons, List.map_nil, storeMembers, hmethod,
    hparams]

/-! ## The round trip of a message -/

/-- C7 as stated fails: a method string that is not valid UTF-8, here the
single byte 0xFF, is encoded as the escape of U+FFFD and decodes to the three
bytes of U+FFFD, not to the byte 0xFF. -/
theorem roundTrip_counterexample :
    jsonMarshal { Method := [0xFF] } =
      .ok (ascii ("\x7b\"method\":\"\\ufffd\",\"params\":\x7b\"state\":false\x7d\x7d")) ∧
    roundTrip { Method := [0xFF] } = .ok { Method := [0xEF, 0xBF, 0xBD] } ∧
    roundTrip { Method := [0xFF] } ≠ .ok { Method := [0xFF] } := by
  decide

/-- C7, amended: for every message whose method string is valid UTF-8 and
whose numeric fields are in the range of `int`, the encoding is the text of
the members of the message, where a numeric field that is zero has no member,
and decoding the encoding into a fresh `Message` yields the message again. -/
theorem roundTrip_valid (m : Message) (hvalid : validUTF8 m.Method = true)
    (hw : IsInt64 m.Params.White) (hr : IsInt64 m.Params.Red) (hb : IsInt64 m.Params.Blue)
    (hg : IsInt64 m.Params.Green) (hd : IsInt64 m.Params.Dimming) :
    jsonMarshal m = .ok (123 :: (membersText (messageMembers m) ++ [125])) ∧
    roundTrip m = .ok m := by
  refine ⟨by rw [jsonMarshal_ok, encode_message], ?_⟩
  simp only [roundTrip, jsonMarshal_ok, jsonUnmarshalMessage]
  rw [parseJSON_encode m hvalid]
  exact store_messageMembers m hw hr hb hg hd

/-- C7, amended, at a concrete input: a message with a method that needs
escapes and a rune of two bytes, a negative field and fields that are zero
reads back as itself. -/
theorem roundTrip_valid_witness :
    roundTrip { Method := [34, 60, 0xC3, 0xA9, 10], Params := { State := true, Red := -255, Green := 100 } } =
      .ok { Method := [34, 60, 0xC3, 0xA9, 10], Params := { State := true, Red := -255, Green := 100 } } :=
  (roundTrip_valid
    { Method := [34, 60, 0xC3, 0xA9, 10], Params := { State := true, Red := -255, Green := 100 } }
    (by decide) (by norm_num [IsInt64]) (by norm_num [IsInt64]) (by norm_num [IsInt64])
    (by norm_num [IsInt64]) (by norm_num [IsInt64])).2

end Gowiz
